import Mathlib

/-!
Aurora mock codec: the framing contract.

A shallow embedding of `src/libaurora_mock.c` (the frame packer
`aurora_encoder_encode` and the frame unpacker `aurora_decoder_decode`)
together with theorems about the 16-byte header, the plane layout and the two
size checks.

Modelling conventions:

* a C buffer is a `Buf`: the number of bytes of the underlying object and its
  contents, addressed by the byte offset from the pointer the caller passes.
  Distinct pointer arguments denote distinct objects;
* `size_t` is 64 bits wide and `int` is 32 bits wide; `size_t` arithmetic is
  taken modulo `2^64`;
* the host is little-endian (the header is written and read with the host's
  object representation of `int` and `float`);
* a `float` is carried as its 32-bit pattern: the code only moves it around;
* an access outside the object is undefined behaviour: the model returns
  `none` for the whole call;
* each call records the `memcpy`/`memset` calls it performs (`trace`), in
  program order, so that "bytes written" can be stated;
* a scalar out-parameter (`*out_size`, `*ow`, `*oh`, `*ofps`) is an `Option`:
  `none` when the call performed no store to it.
-/

namespace Aurora

set_option autoImplicit false

/-! ## Machine arithmetic -/

/-- One octet. -/
abbrev Byte := Fin 256

/-- Number of values of a `size_t` (64 bits). -/
def SIZE_MODULUS : Nat := 18446744073709551616

/-- Number of values of an `int` (32 bits). -/
def INT_MODULUS : Nat := 4294967296

/-- Largest size of an object (`PTRDIFF_MAX`, 63 bits). -/
def PTRDIFF_MAX : Nat := 9223372036854775807

/-- Largest `int`. -/
def INT_MAX : Int := 2147483647

/-- Smallest `int`. -/
def INT_MIN : Int := -2147483648

/-- The values an `int` can hold. -/
def IsInt32 (x : Int) : Prop := INT_MIN ≤ x ∧ x ≤ INT_MAX

instance (x : Int) : Decidable (IsInt32 x) := by
  unfold IsInt32; exact inferInstance

/-- The conversion `(size_t)x` of a signed integer. -/
def toSize (x : Int) : Nat := (x % (SIZE_MODULUS : Int)).toNat

/-- Addition of two `size_t` values. -/
def sizeAdd (a b : Nat) : Nat := (a + b) % SIZE_MODULUS

/-- Multiplication of two `size_t` values. -/
def sizeMul (a b : Nat) : Nat := (a * b) % SIZE_MODULUS

/-- The offset reached by `p += d` for a byte pointer at offset `p` and an
`int` `d`, on a flat 64-bit address space. -/
def ptrAdd (p : Nat) (d : Int) : Nat := toSize ((p : Int) + d)

/-- The unsigned 32-bit pattern of an `int`. -/
def toU32 (x : Int) : Nat := (x % (INT_MODULUS : Int)).toNat

/-- The `int` whose 32-bit pattern is `x`. -/
def toInt32 (x : Nat) : Int :=
  if x % INT_MODULUS < 2147483648 then ((x % INT_MODULUS : Nat) : Int)
  else ((x % INT_MODULUS : Nat) : Int) - (INT_MODULUS : Int)

/-! ## Memory -/

/-- A caller-owned object: `size` bytes, byte `i` being `data i`. -/
structure Buf where
  size : Nat
  data : Nat → Byte

/-- Byte `i` of the little-endian object representation of a 32-bit value. -/
def leByte (x i : Nat) : Byte := ⟨(x / 256 ^ i) % 256, Nat.mod_lt _ (by decide)⟩

/-- The 4-byte object holding the 32-bit value `x` (a local `int` or the
`float` field of the context). -/
def obj32 (x : Nat) : Buf := { size := 4, data := fun i => leByte x i }

/-- A `memcpy`/`memset` call, its pointer arguments given as byte offsets into
the destination and source objects. -/
inductive Call where
  | memcpy (dst src n : Nat)
  | memset (dst n : Nat)
deriving DecidableEq, Repr

/-- Offset of the first byte a call stores. -/
def Call.dst : Call → Nat
  | .memcpy d _ _ => d
  | .memset d _ => d

/-- Number of bytes a call stores. -/
def Call.len : Call → Nat
  | .memcpy _ _ n => n
  | .memset _ n => n

/-- The call stores to offset `i` of its destination. -/
def Call.writes (c : Call) (i : Nat) : Prop := c.dst ≤ i ∧ i < c.dst + c.len

instance (c : Call) (i : Nat) : Decidable (c.writes i) := by
  unfold Call.writes; exact inferInstance

/-- Total number of bytes stored by a sequence of calls. -/
def bytesWritten (t : List Call) : Nat := (t.map Call.len).sum

/-- The library call `memcpy(dst + d, src + s, n)`. -/
def memcpy (dst : Buf) (d : Nat) (src : Buf) (s n : Nat) : Option Buf :=
  if d + n ≤ dst.size ∧ s + n ≤ src.size then
    some { size := dst.size,
           data := fun i => if d ≤ i ∧ i < d + n then src.data (s + (i - d)) else dst.data i }
  else none

/-- The library call `memset(dst + d, b, n)`. -/
def memset (dst : Buf) (d : Nat) (b : Byte) (n : Nat) : Option Buf :=
  if d + n ≤ dst.size then
    some { size := dst.size,
           data := fun i => if d ≤ i ∧ i < d + n then b else dst.data i }
  else none

/-- The load `*(const T*)(b + off)` of a 32-bit object, as its bit pattern. -/
def load32 (b : Buf) (off : Nat) : Option Nat :=
  if off + 4 ≤ b.size then
    some ((b.data off).val + 256 * (b.data (off + 1)).val
      + 65536 * (b.data (off + 2)).val + 16777216 * (b.data (off + 3)).val)
  else none

/-- The loop `for (int r = 0; r < n; ++r) body`, for a bound `n` that is not
negative: the first `n` iterations in order. -/
def forLoop {σ : Type} (n : Nat) (body : Nat → σ → Option σ) (s : σ) : Option σ :=
  match n with
  | 0 => some s
  | k + 1 => (forLoop k body s).bind (body k)

/-! ## Contexts -/

/-- The encoder context `EncCtx`: width, height and the frame rate's bits. -/
structure EncCtx where
  w : Int
  h : Int
  fps : Nat

/-- The decoder context `DecCtx`; its field is never read or written. -/
structure DecCtx where
  d : Int

/-- The function `aurora_version`. -/
def aurora_version : Int := 1

/-- The function `aurora_encoder_create`; `allocated` tells whether `malloc`
returned an object. `none` is the null pointer. -/
def aurora_encoder_create (allocated : Bool) (w h : Int) (fps : Nat) : Option EncCtx :=
  if !allocated then none else some { w := w, h := h, fps := fps }

/-- The function `aurora_decoder_create`; the field of the new object is left
uninitialised, `junk` is the value it happens to hold. -/
def aurora_decoder_create (allocated : Bool) (junk : Int) : Option DecCtx :=
  if !allocated then none else some { d := junk }

/-! ## Frame packer -/

/-- State of the packer while it writes: the destination, the write pointer
`p` (as an offset from `out`) and the calls made so far. -/
structure EncState where
  out : Buf
  p : Nat
  trace : List Call

/-- State transformer for `memcpy(out + d, src + s, n)`. -/
def EncState.copy (st : EncState) (d : Nat) (src : Buf) (s n : Nat) : Option EncState :=
  match memcpy st.out d src s n with
  | none => none
  | some o => some { out := o, p := st.p, trace := st.trace ++ [Call.memcpy d s n] }

/-- State transformer for `memset(out + d, 0, n)`. -/
def EncState.zero (st : EncState) (d n : Nat) : Option EncState :=
  match memset st.out d 0 n with
  | none => none
  | some o => some { out := o, p := st.p, trace := st.trace ++ [Call.memset d n] }

/-- Body of a packer loop:
`memcpy(p, src + (size_t)r*stride, (size_t)len); p += len;`. -/
def encRow (src : Buf) (stride len : Int) (r : Nat) (st : EncState) : Option EncState :=
  match st.copy st.p src (sizeMul (toSize (r : Int)) (toSize stride)) (toSize len) with
  | none => none
  | some st1 => some { out := st1.out, p := ptrAdd st1.p len, trace := st1.trace }

/-- What `aurora_encoder_encode` returns and leaves behind. -/
structure EncResult where
  status : Int
  out : Buf
  out_size : Option Nat
  trace : List Call

/-- The value `need` computed by both size checks from `w` and `h`:
`16 + (size_t)w*h + 2 * ((size_t)(w/2)*(h/2))` in `size_t` arithmetic. -/
def needSize (w h : Int) : Nat :=
  let Y := sizeMul (toSize w) (toSize h)
  let U := sizeMul (toSize (w.tdiv 2)) (toSize (h.tdiv 2))
  let V := U
  sizeAdd (sizeAdd (sizeAdd 16 Y) U) V

/-- The four header stores of `aurora_encoder_encode`:
`memcpy(out+0,&w,4); memcpy(out+4,&h,4); memcpy(out+8,&c->fps,4); memset(out+12,0,4);`. -/
def encHeader (c : EncCtx) (out : Buf) : Option EncState :=
  let st : EncState := { out := out, p := 0, trace := [] }
  (st.copy 0 (obj32 (toU32 c.w)) 0 4).bind fun st =>
  (st.copy 4 (obj32 (toU32 c.h)) 0 4).bind fun st =>
  (st.copy 8 (obj32 c.fps) 0 4).bind fun st =>
  st.zero 12 4

/-- The function `aurora_encoder_encode`. -/
def aurora_encoder_encode (enc : Option EncCtx) (y u v : Buf) (ys us vs : Int)
    (out : Buf) (cap : Nat) : Option EncResult :=
  match enc with
  | none => some { status := -1, out := out, out_size := none, trace := [] }
  | some c =>
    let w := c.w
    let h := c.h
    let need := needSize w h
    if cap < need then some { status := -2, out := out, out_size := none, trace := [] }
    else
      (encHeader c out).bind fun st =>
      let st : EncState := { out := st.out, p := 16, trace := st.trace }
      (forLoop h.toNat (encRow y ys w) st).bind fun st =>
      (forLoop (h.tdiv 2).toNat (encRow u us (w.tdiv 2)) st).bind fun st =>
      (forLoop (h.tdiv 2).toNat (encRow v vs (w.tdiv 2)) st).bind fun st =>
      some { status := 0, out := st.out, out_size := some st.p, trace := st.trace }

/-! ## Frame unpacker -/

/-- State of the unpacker while it copies one plane: the destination plane,
the read pointer `p` (as an offset from `bs`) and the calls made so far. -/
structure DecState where
  dst : Buf
  p : Nat
  trace : List Call

/-- Body of an unpacker loop:
`memcpy(dst + (size_t)r*stride, p, (size_t)len); p += len;`. -/
def decRow (bs : Buf) (stride len : Int) (r : Nat) (st : DecState) : Option DecState :=
  match memcpy st.dst (sizeMul (toSize (r : Int)) (toSize stride)) bs st.p (toSize len) with
  | none => none
  | some o =>
    some { dst := o, p := ptrAdd st.p len,
           trace := st.trace ++
             [Call.memcpy (sizeMul (toSize (r : Int)) (toSize stride)) st.p (toSize len)] }

/-- What `aurora_decoder_decode` returns and leaves behind. -/
structure DecResult where
  status : Int
  y : Buf
  u : Buf
  v : Buf
  ow : Option Int
  oh : Option Int
  ofps : Option Nat
  trace : List Call

/-- A return of `aurora_decoder_decode` before any store. -/
def decFail (status : Int) (y u v : Buf) : DecResult :=
  { status := status, y := y, u := u, v := v, ow := none, oh := none, ofps := none,
    trace := [] }

/-- The function `aurora_decoder_decode`; `bs = none` is a null source. -/
def aurora_decoder_decode (dec : Option DecCtx) (bs : Option Buf) (n : Nat)
    (y u v : Buf) (ys us vs : Int) : Option DecResult :=
  match dec, bs with
  | some _, some b =>
    if n < 16 then some (decFail (-1) y u v)
    else
      (load32 b 0).bind fun wbits =>
      (load32 b 4).bind fun hbits =>
      (load32 b 8).bind fun fps =>
      let w := toInt32 wbits
      let h := toInt32 hbits
      if n < needSize w h then some (decFail (-2) y u v)
      else
        (forLoop h.toNat (decRow b ys w) { dst := y, p := 16, trace := [] }).bind fun s1 =>
        (forLoop (h.tdiv 2).toNat (decRow b us (w.tdiv 2))
          { dst := u, p := s1.p, trace := s1.trace }).bind fun s2 =>
        (forLoop (h.tdiv 2).toNat (decRow b vs (w.tdiv 2))
          { dst := v, p := s2.p, trace := s2.trace }).bind fun s3 =>
        some { status := 0, y := s1.dst, u := s2.dst, v := s3.dst,
               ow := some w, oh := some h, ofps := some fps, trace := s3.trace }
  | _, _ => some (decFail (-1) y u v)

/-! ## Caller contract on plane objects -/

/-- The object `b` holds `rows` rows of `w` bytes laid out `stride` bytes
apart: the last byte of the last row is inside the object. -/
def PlaneFits (b : Buf) (stride w rows : Nat) : Prop :=
  rows = 0 ∨ (rows - 1) * stride + w ≤ b.size

instance (b : Buf) (stride w rows : Nat) : Decidable (PlaneFits b stride w rows) := by
  unfold PlaneFits; exact inferInstance

/-! ## Sample buffers -/

/-- A buffer of `size` bytes whose byte `i` is `(7*i + k) mod 256`. -/
def rampBuf (size k : Nat) : Buf :=
  { size := size, data := fun i => ⟨(i * 7 + k) % 256, Nat.mod_lt _ (by decide)⟩ }

/-- A buffer of `size` bytes, all equal to `b`. -/
def constBuf (size : Nat) (b : Byte) : Buf := { size := size, data := fun _ => b }

/-- A 20-byte source whose header declares a 4 x 2 frame (28 bytes). -/
def truncatedFrame : Buf :=
  { size := 20, data := fun i => if i = 0 then 4 else if i = 4 then 2 else 0 }

/-- A 28-byte source: the header of a 4 x 2 frame at 30.0 fps (bits
`0x41F00000`) with non-zero reserved bytes, then the bytes `3*i mod 256`. -/
def sampleFrame : Buf :=
  { size := 28,
    data := fun i =>
      if i = 0 then 4 else if i = 4 then 2 else if i = 10 then 240 else if i = 11 then 65
      else if i < 12 then 0 else ⟨(i * 3) % 256, Nat.mod_lt _ (by decide)⟩ }

/-- The samples of `rampBuf 16 0` read with stride 6, laid out again with
stride 5 and the byte 99 in the padding. -/
def repackedLuma : Buf :=
  { size := 9,
    data := fun i =>
      if i < 4 then (rampBuf 16 0).data i else if i = 4 then 99
      else (rampBuf 16 0).data (i + 1) }


/-! ## Allocation -/

/-- The set of live allocations, each known by its address. -/
abbrev Heap := Finset Nat

/-- The null pointer. -/
def NULL : Nat := 0

/-- The library call `free(p)`: nothing happens for a null pointer, a live
allocation is released, and any other pointer (one that was already released)
is undefined behaviour. -/
def free (heap : Heap) (p : Nat) : Option Heap :=
  if p = NULL then some heap
  else if p ∈ heap then some (heap.erase p)
  else none

/-- The function `aurora_encoder_free`: `if(enc) free(enc);`. -/
def aurora_encoder_free (heap : Heap) (enc : Nat) : Option Heap :=
  if enc ≠ NULL then free heap enc else some heap

/-- The function `aurora_decoder_free`: `if(dec) free(dec);`. -/
def aurora_decoder_free (heap : Heap) (dec : Nat) : Option Heap :=
  if dec ≠ NULL then free heap dec else some heap

/-! ## More sample buffers -/

/-- The frame `sampleFrame` with its reserved bytes 12..15 set to zero. -/
def sampleFrameZeroReserved : Buf :=
  { size := 28, data := fun i => if 12 ≤ i ∧ i < 16 then 0 else sampleFrame.data i }

/-- A 20-byte source whose header declares width -1 and height -1. -/
def negFrame : Buf :=
  { size := 20, data := fun i => if i < 8 then 255 else 0 }

/-- A 20-byte source whose header declares width -1 and height 1. -/
def badRowFrame : Buf :=
  { size := 20, data := fun i => if i < 4 then 255 else if i = 4 then 1 else 0 }

/-! ## Arithmetic lemmas -/

theorem toSize_natCast (n : Nat) (h : n < SIZE_MODULUS) : toSize (n : Int) = n := by
  unfold toSize
  rw [← Int.natCast_mod, Int.toNat_ofNat]
  exact Nat.mod_eq_of_lt h

theorem sizeMul_eq (a b : Nat) (h : a * b < SIZE_MODULUS) : sizeMul a b = a * b :=
  Nat.mod_eq_of_lt h

theorem sizeAdd_eq (a b : Nat) (h : a + b < SIZE_MODULUS) : sizeAdd a b = a + b :=
  Nat.mod_eq_of_lt h

theorem ptrAdd_natCast (p n : Nat) (h : p + n < SIZE_MODULUS) : ptrAdd p (n : Int) = p + n := by
  unfold ptrAdd
  rw [← Int.natCast_add]
  exact toSize_natCast _ h

theorem tdiv_two_natCast (n : Nat) : (n : Int).tdiv 2 = ((n / 2 : Nat) : Int) := by
  rw [Int.ofNat_tdiv]; rfl

theorem toU32_natCast (n : Nat) (h : n < INT_MODULUS) : toU32 (n : Int) = n := by
  unfold toU32
  rw [← Int.natCast_mod, Int.toNat_ofNat]
  exact Nat.mod_eq_of_lt h

theorem mul_lt_of_lt_int (a b : Nat) (ha : a < 2147483648) (hb : b < 2147483648) :
    a * b < 4611686018427387904 := by
  calc a * b ≤ 2147483647 * 2147483647 := Nat.mul_le_mul (by omega) (by omega)
    _ < 4611686018427387904 := by norm_num

theorem half_mul_half_le (a b : Nat) : (a / 2) * (b / 2) ≤ a * b :=
  Nat.mul_le_mul (Nat.div_le_self _ _) (Nat.div_le_self _ _)

/-- The exact required size `16 + W*H + 2*(W/2)*(H/2)` of a `W x H` frame. -/
theorem needSize_natCast (W H : Nat) (hW : W < 2147483648) (hH : H < 2147483648) :
    needSize (W : Int) (H : Int) = 16 + W * H + 2 * ((W / 2) * (H / 2)) := by
  have h1 := mul_lt_of_lt_int W H hW hH
  have h2 := mul_lt_of_lt_int (W / 2) (H / 2) (by omega) (by omega)
  have h3 := half_mul_half_le W H
  unfold needSize
  simp only [tdiv_two_natCast]
  rw [toSize_natCast W (by unfold SIZE_MODULUS; omega), toSize_natCast H (by unfold SIZE_MODULUS; omega),
    toSize_natCast (W / 2) (by unfold SIZE_MODULUS; omega),
    toSize_natCast (H / 2) (by unfold SIZE_MODULUS; omega)]
  rw [sizeMul_eq _ _ (by unfold SIZE_MODULUS; omega), sizeMul_eq _ _ (by unfold SIZE_MODULUS; omega)]
  rw [sizeAdd_eq 16 _ (by unfold SIZE_MODULUS; omega)]
  rw [sizeAdd_eq (16 + W * H) _ (by unfold SIZE_MODULUS; omega)]
  rw [sizeAdd_eq _ _ (by unfold SIZE_MODULUS; omega)]
  omega

theorem row_lt (r n w c : Nat) (hr : r < n) (hc : c < w) : r * w + c < n * w := by
  have h : (r + 1) * w ≤ n * w := Nat.mul_le_mul_right w hr
  rw [Nat.add_mul, Nat.one_mul] at h
  omega

theorem row_le (r n w : Nat) (hr : r ≤ n) : r * w ≤ n * w := Nat.mul_le_mul_right w hr

/-! ## Memory lemmas -/

theorem memcpy_some {dst src o : Buf} {d s n : Nat} (h : memcpy dst d src s n = some o) :
    d + n ≤ dst.size ∧ s + n ≤ src.size ∧ o.size = dst.size ∧
      ∀ i, o.data i = if d ≤ i ∧ i < d + n then src.data (s + (i - d)) else dst.data i := by
  unfold memcpy at h
  split at h
  · rename_i hc
    cases h
    exact ⟨hc.1, hc.2, rfl, fun _ => rfl⟩
  · cases h

theorem memcpy_ok (dst src : Buf) (d s n : Nat) (h1 : d + n ≤ dst.size)
    (h2 : s + n ≤ src.size) : ∃ o, memcpy dst d src s n = some o := by
  unfold memcpy
  rw [if_pos ⟨h1, h2⟩]
  exact ⟨_, rfl⟩

theorem memset_some {dst o : Buf} {d n : Nat} {b : Byte} (h : memset dst d b n = some o) :
    d + n ≤ dst.size ∧ o.size = dst.size ∧
      ∀ i, o.data i = if d ≤ i ∧ i < d + n then b else dst.data i := by
  unfold memset at h
  split at h
  · rename_i hc
    cases h
    exact ⟨hc, rfl, fun _ => rfl⟩
  · cases h

theorem memset_ok (dst : Buf) (d n : Nat) (b : Byte) (h1 : d + n ≤ dst.size) :
    ∃ o, memset dst d b n = some o := by
  unfold memset
  rw [if_pos h1]
  exact ⟨_, rfl⟩

theorem copy_some {st st' : EncState} {src : Buf} {d s n : Nat}
    (h : st.copy d src s n = some st') :
    memcpy st.out d src s n = some st'.out ∧ st'.p = st.p ∧
      st'.trace = st.trace ++ [Call.memcpy d s n] := by
  unfold EncState.copy at h
  split at h
  · cases h
  · rename_i o ho
    cases h
    exact ⟨ho, rfl, rfl⟩

theorem zero_some {st st' : EncState} {d n : Nat} (h : st.zero d n = some st') :
    memset st.out d 0 n = some st'.out ∧ st'.p = st.p ∧
      st'.trace = st.trace ++ [Call.memset d n] := by
  unfold EncState.zero at h
  split at h
  · cases h
  · rename_i o ho
    cases h
    exact ⟨ho, rfl, rfl⟩

/-- One packer row whose length is not negative and whose pointer does not wrap. -/
theorem encRow_some {src : Buf} {stride : Int} {w r : Nat} {st st' : EncState}
    (hw : st.p + w < SIZE_MODULUS) (h : encRow src stride (w : Int) r st = some st') :
    st'.p = st.p + w ∧
      memcpy st.out st.p src (sizeMul (toSize (r : Int)) (toSize stride)) w = some st'.out ∧
      st'.trace = st.trace ++ [Call.memcpy st.p (sizeMul (toSize (r : Int)) (toSize stride)) w] := by
  unfold encRow at h
  rw [toSize_natCast w (by omega)] at h
  split at h
  · cases h
  · rename_i st1 h1
    cases h
    obtain ⟨ha, hb, hc⟩ := copy_some h1
    refine ⟨?_, ha, hc⟩
    show ptrAdd st1.p (w : Int) = st.p + w
    rw [hb]
    exact ptrAdd_natCast _ _ hw

theorem encRow_ok (src : Buf) (stride : Int) (w r : Nat) (st : EncState)
    (h1 : st.p + w ≤ st.out.size)
    (h2 : sizeMul (toSize (r : Int)) (toSize stride) + w ≤ src.size)
    (hw : w < SIZE_MODULUS) :
    ∃ st', encRow src stride (w : Int) r st = some st' := by
  unfold encRow EncState.copy
  rw [toSize_natCast w hw]
  obtain ⟨o, ho⟩ := memcpy_ok st.out src st.p _ w h1 h2
  rw [ho]
  exact ⟨_, rfl⟩

theorem forLoop_succ_some {σ : Type} {n : Nat} {body : Nat → σ → Option σ} {s s' : σ}
    (h : forLoop (n + 1) body s = some s') :
    ∃ s1, forLoop n body s = some s1 ∧ body n s1 = some s' := by
  unfold forLoop at h
  exact Option.bind_eq_some.mp h

/-- The packer loop after `n` rows of `w` bytes: where the pointer is, which
bytes of `out` it set and which it left alone, and the calls it made. -/
theorem encLoop_some (src : Buf) (stride : Int) (w : Nat) :
    ∀ (n : Nat) (st st' : EncState), st.p + n * w < SIZE_MODULUS →
      forLoop n (encRow src stride (w : Int)) st = some st' →
      st'.p = st.p + n * w ∧ st'.out.size = st.out.size ∧
      (0 < n → st.p + n * w ≤ st.out.size) ∧
      (∀ r c, r < n → c < w →
        st'.out.data (st.p + r * w + c)
          = src.data (sizeMul (toSize (r : Int)) (toSize stride) + c)) ∧
      (∀ i, i < st.p ∨ st.p + n * w ≤ i → st'.out.data i = st.out.data i) ∧
      st'.trace = st.trace ++ (List.range n).map
        (fun r => Call.memcpy (st.p + r * w) (sizeMul (toSize (r : Int)) (toSize stride)) w) := by
  intro n
  induction n with
  | zero =>
    intro st st' _ h
    simp only [forLoop, Option.some.injEq] at h
    subst h
    simp
  | succ n ih =>
    intro st st' hp h
    obtain ⟨s1, h1, h2⟩ := forLoop_succ_some h
    have hmul : (n + 1) * w = n * w + w := by rw [Nat.add_mul, Nat.one_mul]
    rw [hmul] at hp
    obtain ⟨ihp, ihs, _, ihc, ihf, iht⟩ := ih st s1 (by omega) h1
    obtain ⟨hp', hm, ht⟩ := encRow_some (by rw [ihp]; omega) h2
    obtain ⟨hm1, hm2, hm3, hm4⟩ := memcpy_some hm
    rw [hmul]
    refine ⟨by rw [hp', ihp]; omega, by rw [hm3, ihs], fun _ => by omega,
      ?_, ?_, ?_⟩
    · intro r c hr hc
      rw [hm4]
      rcases Nat.lt_succ_iff_lt_or_eq.mp hr with hlt | heq
      · have := row_lt r n w c hlt hc
        rw [if_neg (by rw [ihp]; omega)]
        exact ihc r c hlt hc
      · subst heq
        rw [if_pos (by rw [ihp]; omega), ihp]
        congr 2
        omega
    · intro i hi
      rw [hm4, if_neg (by rw [ihp]; omega)]
      exact ihf i (by omega)
    · rw [ht, iht, List.range_succ, List.map_append, List.append_assoc, ihp]
      rfl

theorem planeFits_row {b : Buf} {stride w rows r : Nat} (h : PlaneFits b stride w rows)
    (hr : r < rows) : r * stride + w ≤ b.size := by
  rcases h with h | h
  · omega
  · have := row_le r (rows - 1) stride (by omega)
    omega

theorem rowOff_natCast (r stride : Nat) (hr : r < 2147483648) (hs : stride < 2147483648) :
    sizeMul (toSize (r : Int)) (toSize (stride : Int)) = r * stride := by
  have h := mul_lt_of_lt_int r stride hr hs
  rw [toSize_natCast r (by unfold SIZE_MODULUS; omega),
    toSize_natCast stride (by unfold SIZE_MODULUS; omega),
    sizeMul_eq _ _ (by unfold SIZE_MODULUS; omega)]

/-- The packer loop runs to completion when the destination has room for the
rows and the source holds them. -/
theorem encLoop_ok (src : Buf) (stride w : Nat) (hs : stride < 2147483648) :
    ∀ (n : Nat) (st : EncState), n ≤ 2147483648 → st.p + n * w < SIZE_MODULUS →
      st.p + n * w ≤ st.out.size → PlaneFits src stride w n →
      ∃ st', forLoop n (encRow src (stride : Int) (w : Int)) st = some st' := by
  intro n
  induction n with
  | zero => intro st _ _ _ _; exact ⟨st, rfl⟩
  | succ n ih =>
    intro st hn hp ho hf
    have hmul : (n + 1) * w = n * w + w := by rw [Nat.add_mul, Nat.one_mul]
    rw [hmul] at hp ho
    have hf' : PlaneFits src stride w n := by
      rcases hf with hf | hf
      · omega
      · rcases Nat.eq_zero_or_pos n with h0 | h0
        · exact Or.inl h0
        · right
          have := row_le (n - 1) (n + 1 - 1) stride (by omega)
          omega
    obtain ⟨s1, h1⟩ := ih st (by omega) (by omega) (by omega) hf'
    obtain ⟨ihp, ihs, _⟩ := encLoop_some src stride w n st s1 (by omega) h1
    have hrow := planeFits_row hf (Nat.lt_succ_self n)
    obtain ⟨s2, h2⟩ := encRow_ok src (stride : Int) w n s1 (by omega)
      (by rw [rowOff_natCast n stride (by omega) hs]; exact hrow) (by omega)
    refine ⟨s2, ?_⟩
    unfold forLoop
    rw [h1]
    exact h2

/-! ## Header lemmas -/

theorem leByte_sum (x : Nat) :
    (leByte x 0).val + 256 * (leByte x 1).val + 65536 * (leByte x 2).val
      + 16777216 * (leByte x 3).val = x % 4294967296 := by
  simp only [leByte]
  norm_num
  omega

theorem load32_congr {b b' : Buf} {off : Nat} (hs : b'.size = b.size)
    (hd : ∀ i, i < off + 4 → b'.data i = b.data i) : load32 b' off = load32 b off := by
  unfold load32
  rw [hs, hd off (by omega), hd (off + 1) (by omega), hd (off + 2) (by omega),
    hd (off + 3) (by omega)]

theorem toU32_lt (x : Int) : toU32 x < 4294967296 := by
  unfold toU32 INT_MODULUS
  omega

theorem toInt32_toU32 (x : Int) (h : IsInt32 x) : toInt32 (toU32 x) = x := by
  unfold IsInt32 INT_MIN INT_MAX at h
  unfold toInt32 toU32 INT_MODULUS
  split <;> omega

/-- The header stores need 16 bytes of destination and nothing else. -/
theorem encHeader_ok (c : EncCtx) (out : Buf) (h : 16 ≤ out.size) :
    ∃ st, encHeader c out = some st := by
  unfold encHeader EncState.copy EncState.zero memcpy memset obj32
  simp only [Option.bind]
  have h1 : 0 + 4 ≤ out.size ∧ 0 + 4 ≤ 4 := ⟨by omega, by omega⟩
  have h2 : 4 + 4 ≤ out.size ∧ 0 + 4 ≤ 4 := ⟨by omega, by omega⟩
  have h3 : 8 + 4 ≤ out.size ∧ 0 + 4 ≤ 4 := ⟨by omega, by omega⟩
  have h4 : 12 + 4 ≤ out.size := by omega
  simp [h1, h2, h3, h4]

/-- What the header stores leave in the destination. -/
theorem encHeader_some {c : EncCtx} {out : Buf} {st : EncState}
    (h : encHeader c out = some st) :
    16 ≤ out.size ∧ st.out.size = out.size ∧
      load32 st.out 0 = some (toU32 c.w) ∧ load32 st.out 4 = some (toU32 c.h) ∧
      load32 st.out 8 = some (c.fps % 4294967296) ∧
      (∀ i, 12 ≤ i → i < 16 → st.out.data i = 0) ∧
      (∀ i, 16 ≤ i → st.out.data i = out.data i) ∧
      st.trace = [Call.memcpy 0 0 4, Call.memcpy 4 0 4, Call.memcpy 8 0 4, Call.memset 12 4] := by
  unfold encHeader at h
  obtain ⟨s1, h1, h⟩ := Option.bind_eq_some.mp h
  obtain ⟨s2, h2, h⟩ := Option.bind_eq_some.mp h
  obtain ⟨s3, h3, h4⟩ := Option.bind_eq_some.mp h
  obtain ⟨m1, _, t1⟩ := copy_some h1
  obtain ⟨m2, _, t2⟩ := copy_some h2
  obtain ⟨m3, _, t3⟩ := copy_some h3
  obtain ⟨m4, _, t4⟩ := zero_some h4
  obtain ⟨a1, _, z1, d1⟩ := memcpy_some m1
  obtain ⟨a2, _, z2, d2⟩ := memcpy_some m2
  obtain ⟨a3, _, z3, d3⟩ := memcpy_some m3
  obtain ⟨a4, z4, d4⟩ := memset_some m4
  have hw := leByte_sum (toU32 c.w)
  have hh := leByte_sum (toU32 c.h)
  have hf := leByte_sum c.fps
  rw [Nat.mod_eq_of_lt (toU32_lt _)] at hw hh
  have hsize : st.out.size = out.size := by rw [z4, z3, z2, z1]
  refine ⟨by omega, hsize, ?_, ?_, ?_, ?_, ?_, ?_⟩
  · unfold load32
    rw [if_pos (by omega), ← hw]
    simp [d4, d3, d2, d1, obj32]
  · unfold load32
    rw [if_pos (by omega), ← hh]
    simp [d4, d3, d2, d1, obj32]
  · unfold load32
    rw [if_pos (by omega), ← hf]
    simp [d4, d3, d2, d1, obj32]
  · intro i h12 h16
    rw [d4, if_pos ⟨h12, by omega⟩]
  · intro i hi
    rw [d4, if_neg (by omega), d3, if_neg (by omega), d2, if_neg (by omega), d1,
      if_neg (by omega)]
  · rw [t4, t3, t2, t1]
    rfl

/-- The header stores, byte by byte. -/
theorem encHeader_bytes {c : EncCtx} {out : Buf} {st : EncState}
    (h : encHeader c out = some st) (i : Nat) (hi : i < 4) :
    st.out.data i = leByte (toU32 c.w) i ∧ st.out.data (4 + i) = leByte (toU32 c.h) i ∧
      st.out.data (8 + i) = leByte c.fps i := by
  unfold encHeader at h
  obtain ⟨s1, h1, h⟩ := Option.bind_eq_some.mp h
  obtain ⟨s2, h2, h⟩ := Option.bind_eq_some.mp h
  obtain ⟨s3, h3, h4⟩ := Option.bind_eq_some.mp h
  obtain ⟨m1, _, _⟩ := copy_some h1
  obtain ⟨m2, _, _⟩ := copy_some h2
  obtain ⟨m3, _, _⟩ := copy_some h3
  obtain ⟨m4, _, _⟩ := zero_some h4
  obtain ⟨_, _, _, d1⟩ := memcpy_some m1
  obtain ⟨_, _, _, d2⟩ := memcpy_some m2
  obtain ⟨_, _, _, d3⟩ := memcpy_some m3
  obtain ⟨_, _, d4⟩ := memset_some m4
  refine ⟨?_, ?_, ?_⟩
  · rw [d4, if_neg (by omega), d3, if_neg (by omega), d2, if_neg (by omega), d1,
      if_pos (by omega)]
    simp [obj32]
  · rw [d4, if_neg (by omega), d3, if_neg (by omega), d2, if_pos (by omega)]
    simp [obj32]
  · rw [d4, if_neg (by omega), d3, if_pos (by omega)]
    simp [obj32]

/-! ## The packer as a whole -/

theorem encode_null (y u v : Buf) (ys us vs : Int) (out : Buf) (cap : Nat) :
    aurora_encoder_encode none y u v ys us vs out cap
      = some { status := -1, out := out, out_size := none, trace := [] } := rfl

theorem encode_small (c : EncCtx) (y u v : Buf) (ys us vs : Int) (out : Buf) (cap : Nat)
    (h : cap < needSize c.w c.h) :
    aurora_encoder_encode (some c) y u v ys us vs out cap
      = some { status := -2, out := out, out_size := none, trace := [] } := by
  unfold aurora_encoder_encode
  simp only [if_pos h]

/-- A call that passes both checks is the header stores followed by the three
row loops. -/
theorem encode_some_inv {c : EncCtx} {y u v : Buf} {ys us vs : Int} {out : Buf} {cap : Nat}
    {res : EncResult} (hcap : ¬ cap < needSize c.w c.h)
    (h : aurora_encoder_encode (some c) y u v ys us vs out cap = some res) :
    ∃ s0 s1 s2 s3, encHeader c out = some s0 ∧
      forLoop c.h.toNat (encRow y ys c.w) { out := s0.out, p := 16, trace := s0.trace }
        = some s1 ∧
      forLoop (c.h.tdiv 2).toNat (encRow u us (c.w.tdiv 2)) s1 = some s2 ∧
      forLoop (c.h.tdiv 2).toNat (encRow v vs (c.w.tdiv 2)) s2 = some s3 ∧
      res = { status := 0, out := s3.out, out_size := some s3.p, trace := s3.trace } := by
  unfold aurora_encoder_encode at h
  simp only [if_neg hcap] at h
  obtain ⟨s0, h0, h⟩ := Option.bind_eq_some.mp h
  obtain ⟨s1, h1, h⟩ := Option.bind_eq_some.mp h
  obtain ⟨s2, h2, h⟩ := Option.bind_eq_some.mp h
  obtain ⟨s3, h3, h⟩ := Option.bind_eq_some.mp h
  cases h
  exact ⟨s0, s1, s2, s3, h0, h1, h2, h3, rfl⟩

theorem encode_of_steps (c : EncCtx) (y u v : Buf) (ys us vs : Int) (out : Buf) (cap : Nat)
    (s0 s1 s2 s3 : EncState) (hcap : ¬ cap < needSize c.w c.h)
    (h0 : encHeader c out = some s0)
    (h1 : forLoop c.h.toNat (encRow y ys c.w) { out := s0.out, p := 16, trace := s0.trace }
        = some s1)
    (h2 : forLoop (c.h.tdiv 2).toNat (encRow u us (c.w.tdiv 2)) s1 = some s2)
    (h3 : forLoop (c.h.tdiv 2).toNat (encRow v vs (c.w.tdiv 2)) s2 = some s3) :
    aurora_encoder_encode (some c) y u v ys us vs out cap
      = some { status := 0, out := s3.out, out_size := some s3.p, trace := s3.trace } := by
  unfold aurora_encoder_encode
  simp only [if_neg hcap, h0, Option.some_bind, h1, h2, h3]

/-- The exact required size, as a natural number. -/
theorem need_lt (W H : Nat) (hW : W < 2147483648) (hH : H < 2147483648) :
    16 + W * H + 2 * ((W / 2) * (H / 2)) < 9223372036854775808 := by
  have h1 := mul_lt_of_lt_int W H hW hH
  have h2 : (W / 2) * (H / 2) ≤ 1073741823 * 1073741823 :=
    Nat.mul_le_mul (by omega) (by omega)
  omega

/-- Everything a successful pack of a `W x H` frame with non-negative strides
does: it succeeds when the destination and the source planes are large enough,
reports the required size, leaves the header in bytes 0..15, the three planes
tightly packed behind it, and no other byte changed. -/
theorem encode_nat (W H F ys us vs : Nat) (y u v out : Buf) (cap : Nat)
    (hW : W < 2147483648) (hH : H < 2147483648)
    (hys : ys < 2147483648) (hus : us < 2147483648) (hvs : vs < 2147483648)
    (hcap : 16 + W * H + 2 * ((W / 2) * (H / 2)) ≤ cap)
    (hout : 16 + W * H + 2 * ((W / 2) * (H / 2)) ≤ out.size)
    (hy : PlaneFits y ys W H) (hu : PlaneFits u us (W / 2) (H / 2))
    (hv : PlaneFits v vs (W / 2) (H / 2)) :
    ∃ res, aurora_encoder_encode (some { w := W, h := H, fps := F }) y u v ys us vs out cap
        = some res ∧
      res.status = 0 ∧
      res.out_size = some (16 + W * H + 2 * ((W / 2) * (H / 2))) ∧
      res.out.size = out.size ∧
      load32 res.out 0 = some W ∧ load32 res.out 4 = some H ∧
      load32 res.out 8 = some (F % 4294967296) ∧
      (∀ i, 12 ≤ i → i < 16 → res.out.data i = 0) ∧
      (∀ r c, r < H → c < W → res.out.data (16 + r * W + c) = y.data (r * ys + c)) ∧
      (∀ r c, r < H / 2 → c < W / 2 →
        res.out.data (16 + W * H + r * (W / 2) + c) = u.data (r * us + c)) ∧
      (∀ r c, r < H / 2 → c < W / 2 →
        res.out.data (16 + W * H + (W / 2) * (H / 2) + r * (W / 2) + c)
          = v.data (r * vs + c)) ∧
      (∀ i, 16 + W * H + 2 * ((W / 2) * (H / 2)) ≤ i → res.out.data i = out.data i) ∧
      res.trace = [Call.memcpy 0 0 4, Call.memcpy 4 0 4, Call.memcpy 8 0 4, Call.memset 12 4]
        ++ (List.range H).map (fun r => Call.memcpy (16 + r * W) (r * ys) W)
        ++ (List.range (H / 2)).map
            (fun r => Call.memcpy (16 + W * H + r * (W / 2)) (r * us) (W / 2))
        ++ (List.range (H / 2)).map
            (fun r => Call.memcpy (16 + W * H + (W / 2) * (H / 2) + r * (W / 2)) (r * vs)
              (W / 2)) ∧
      ∃ s0, encHeader { w := W, h := H, fps := F } out = some s0 ∧
        ∀ i, i < 16 → res.out.data i = s0.out.data i := by
  have hneed := needSize_natCast W H hW hH
  have hlt := need_lt W H hW hH
  have hmc : H * W = W * H := Nat.mul_comm H W
  have hmc2 : H / 2 * (W / 2) = W / 2 * (H / 2) := Nat.mul_comm _ _
  have hY := mul_lt_of_lt_int W H hW hH
  have hM : SIZE_MODULUS = 18446744073709551616 := rfl
  have hncap : ¬ cap < needSize ((W : Nat) : Int) ((H : Nat) : Int) := by rw [hneed]; omega
  obtain ⟨s0, h0⟩ := encHeader_ok { w := W, h := H, fps := F } out (by omega)
  obtain ⟨z0, zs, lw, lh, lf, lz, lfr, lt⟩ := encHeader_some h0
  simp only at lw lh
  rw [toU32_natCast W (by unfold INT_MODULUS; omega)] at lw
  rw [toU32_natCast H (by unfold INT_MODULUS; omega)] at lh
  obtain ⟨s1, h1⟩ := encLoop_ok y ys W hys H { out := s0.out, p := 16, trace := s0.trace }
    (by omega) (by simp only; omega) (by simp only; omega) hy
  obtain ⟨p1, z1, _, c1, f1, t1⟩ := encLoop_some y ys W H _ s1 (by simp only; omega) h1
  simp only at p1 z1 c1 f1 t1
  obtain ⟨s2, h2⟩ := encLoop_ok u us (W / 2) hus (H / 2) s1
    (by omega) (by omega) (by omega) hu
  obtain ⟨p2, z2, _, c2, f2, t2⟩ := encLoop_some u us (W / 2) (H / 2) _ s2 (by omega) h2
  obtain ⟨s3, h3⟩ := encLoop_ok v vs (W / 2) hvs (H / 2) s2
    (by omega) (by omega) (by omega) hv
  obtain ⟨p3, z3, _, c3, f3, t3⟩ := encLoop_some v vs (W / 2) (H / 2) _ s3 (by omega) h3
  have hrun := encode_of_steps { w := W, h := H, fps := F } y u v ys us vs out cap
    s0 s1 s2 s3 hncap h0
    (by simpa using h1) (by simpa [tdiv_two_natCast] using h2)
    (by simpa [tdiv_two_natCast] using h3)
  have hlow : ∀ i, i < 16 → s3.out.data i = s0.out.data i := by
    intro i hi
    rw [f3 i (by omega), f2 i (by omega), f1 i (by omega)]
  have hsz : s3.out.size = s0.out.size := by rw [z3, z2, z1]
  refine ⟨_, hrun, rfl, ?_, ?_, ?_, ?_, ?_, ?_, ?_, ?_, ?_, ?_, ?_, ⟨s0, h0, hlow⟩⟩
  · show some s3.p = _
    rw [p3, p2, p1]; congr 1; omega
  · show s3.out.size = out.size
    rw [hsz, zs]
  · rw [← lw]; exact load32_congr hsz (fun i hi => hlow i (by omega))
  · rw [← lh]; exact load32_congr hsz (fun i hi => hlow i (by omega))
  · rw [← lf]; exact load32_congr hsz (fun i hi => hlow i (by omega))
  · intro i h12 h16
    show s3.out.data i = 0
    rw [hlow i h16]; exact lz i h12 h16
  · intro r c hr hc
    show s3.out.data _ = _
    have := row_lt r H W c hr hc
    rw [f3 _ (by omega), f2 _ (by omega), c1 r c hr hc, rowOff_natCast r ys (by omega) hys]
  · intro r c hr hc
    show s3.out.data _ = _
    have := row_lt r (H / 2) (W / 2) c hr hc
    rw [f3 _ (by omega)]
    have e : 16 + W * H + r * (W / 2) + c = s1.p + r * (W / 2) + c := by rw [p1]; omega
    rw [e, c2 r c hr hc, rowOff_natCast r us (by omega) hus]
  · intro r c hr hc
    show s3.out.data _ = _
    have e : 16 + W * H + (W / 2) * (H / 2) + r * (W / 2) + c = s2.p + r * (W / 2) + c := by
      rw [p2, p1]; omega
    rw [e, c3 r c hr hc, rowOff_natCast r vs (by omega) hvs]
  · intro i hi
    show s3.out.data i = _
    rw [f3 i (by omega), f2 i (by omega), f1 i (by omega), lfr i (by omega)]
  · show s3.trace = _
    rw [t3, t2, t1, lt, p2, p1, hmc, hmc2]
    have g : ∀ (n S : Nat) (hn : n ≤ 2147483648) (hS : S < 2147483648) (b w : Nat),
        (List.range n).map (fun r => Call.memcpy (b + r * w)
          (sizeMul (toSize (r : Int)) (toSize (S : Int))) w)
        = (List.range n).map (fun r => Call.memcpy (b + r * w) (r * S) w) := by
      intro n S hn hS b w
      apply List.map_congr_left
      intro r hr
      rw [rowOff_natCast r S (by have := List.mem_range.mp hr; omega) hS]
    rw [g H ys (by omega) hys, g (H / 2) us (by omega) hus, g (H / 2) vs (by omega) hvs]

/-! ## The unpacker loops -/

/-- One unpacker row whose length is not negative and whose pointer does not wrap. -/
theorem decRow_some {bs : Buf} {stride : Int} {w r : Nat} {st st' : DecState}
    (hw : st.p + w < SIZE_MODULUS) (h : decRow bs stride (w : Int) r st = some st') :
    st'.p = st.p + w ∧
      memcpy st.dst (sizeMul (toSize (r : Int)) (toSize stride)) bs st.p w = some st'.dst ∧
      st'.trace = st.trace ++ [Call.memcpy (sizeMul (toSize (r : Int)) (toSize stride)) st.p w] := by
  unfold decRow at h
  rw [toSize_natCast w (by omega)] at h
  split at h
  · cases h
  · rename_i o ho
    cases h
    exact ⟨ptrAdd_natCast _ _ hw, ho, rfl⟩

theorem decRow_ok (bs : Buf) (stride : Int) (w r : Nat) (st : DecState)
    (h1 : sizeMul (toSize (r : Int)) (toSize stride) + w ≤ st.dst.size)
    (h2 : st.p + w ≤ bs.size) (hw : w < SIZE_MODULUS) :
    ∃ st', decRow bs stride (w : Int) r st = some st' := by
  unfold decRow
  rw [toSize_natCast w hw]
  obtain ⟨o, ho⟩ := memcpy_ok st.dst bs _ st.p w h1 h2
  rw [ho]
  exact ⟨_, rfl⟩

/-- The unpacker loop after `n` rows of `w` bytes: where the read pointer is,
which bytes of the plane it set (when the rows do not overlap) and which it
left alone, and the calls it made. -/
theorem decLoop_some (bs : Buf) (stride : Int) (w : Nat) :
    ∀ (n : Nat) (st st' : DecState), st.p + n * w < SIZE_MODULUS →
      forLoop n (decRow bs stride (w : Int)) st = some st' →
      st'.p = st.p + n * w ∧ st'.dst.size = st.dst.size ∧
      (0 < n → st.p + n * w ≤ bs.size) ∧
      ((∀ r r', r < r' → r' < n →
          sizeMul (toSize (r : Int)) (toSize stride) + w
            ≤ sizeMul (toSize (r' : Int)) (toSize stride)) →
        ∀ r c, r < n → c < w →
          st'.dst.data (sizeMul (toSize (r : Int)) (toSize stride) + c)
            = bs.data (st.p + r * w + c)) ∧
      (∀ i, (∀ r, r < n → ¬ (sizeMul (toSize (r : Int)) (toSize stride) ≤ i ∧
          i < sizeMul (toSize (r : Int)) (toSize stride) + w)) →
        st'.dst.data i = st.dst.data i) ∧
      st'.trace = st.trace ++ (List.range n).map
        (fun (r : Nat) => Call.memcpy (sizeMul (toSize (r : Int)) (toSize stride)) (st.p + r * w) w) := by
  intro n
  induction n with
  | zero =>
    intro st st' _ h
    simp only [forLoop, Option.some.injEq] at h
    subst h
    simp
  | succ n ih =>
    intro st st' hp h
    obtain ⟨s1, h1, h2⟩ := forLoop_succ_some h
    have hmul : (n + 1) * w = n * w + w := by rw [Nat.add_mul, Nat.one_mul]
    rw [hmul] at hp
    obtain ⟨ihp, ihs, _, ihc, ihf, iht⟩ := ih st s1 (by omega) h1
    obtain ⟨hp', hm, ht⟩ := decRow_some (by rw [ihp]; omega) h2
    obtain ⟨hm1, hm2, hm3, hm4⟩ := memcpy_some hm
    rw [hmul]
    refine ⟨by rw [hp', ihp]; omega, by rw [hm3, ihs], fun _ => by omega, ?_, ?_, ?_⟩
    · intro hdis r c hr hc
      rw [hm4]
      rcases Nat.lt_succ_iff_lt_or_eq.mp hr with hlt | heq
      · have := hdis r n hlt (Nat.lt_succ_self n)
        rw [if_neg (by omega)]
        exact ihc (fun a b hab hb => hdis a b hab (by omega)) r c hlt hc
      · subst heq
        rw [if_pos (by omega), ihp]
        congr 1
        omega
    · intro i hi
      rw [hm4, if_neg (hi n (Nat.lt_succ_self n))]
      exact ihf i (fun r hr => hi r (by omega))
    · rw [ht, iht, List.range_succ, List.map_append, List.append_assoc, ihp]
      rfl

/-- The unpacker loop runs to completion when the source holds the rows and
the destination plane has room for them. -/
theorem decLoop_ok (bs : Buf) (stride w : Nat) (hs : stride < 2147483648) :
    ∀ (n : Nat) (st : DecState), n ≤ 2147483648 → st.p + n * w < SIZE_MODULUS →
      st.p + n * w ≤ bs.size → PlaneFits st.dst stride w n →
      ∃ st', forLoop n (decRow bs (stride : Int) (w : Int)) st = some st' := by
  intro n
  induction n with
  | zero => intro st _ _ _ _; exact ⟨st, rfl⟩
  | succ n ih =>
    intro st hn hp ho hf
    have hmul : (n + 1) * w = n * w + w := by rw [Nat.add_mul, Nat.one_mul]
    rw [hmul] at hp ho
    have hf' : PlaneFits st.dst stride w n := by
      rcases hf with hf | hf
      · omega
      · rcases Nat.eq_zero_or_pos n with h0 | h0
        · exact Or.inl h0
        · right
          have := row_le (n - 1) (n + 1 - 1) stride (by omega)
          omega
    obtain ⟨s1, h1⟩ := ih st (by omega) (by omega) (by omega) hf'
    obtain ⟨ihp, ihs, _⟩ := decLoop_some bs stride w n st s1 (by omega) h1
    have hrow := planeFits_row hf (Nat.lt_succ_self n)
    obtain ⟨s2, h2⟩ := decRow_ok bs (stride : Int) w n s1
      (by rw [rowOff_natCast n stride (by omega) hs, ihs]; exact hrow) (by omega) (by omega)
    refine ⟨s2, ?_⟩
    unfold forLoop
    rw [h1]
    exact h2

/-- Rows laid out `stride >= w` bytes apart do not overlap. -/
theorem rows_disjoint (stride w n : Nat) (hs : stride < 2147483648) (hn : n ≤ 2147483648)
    (hws : w ≤ stride) : ∀ r r', r < r' → r' < n →
      sizeMul (toSize (r : Int)) (toSize (stride : Int)) + w
        ≤ sizeMul (toSize (r' : Int)) (toSize (stride : Int)) := by
  intro r r' hr hr'
  rw [rowOff_natCast r stride (by omega) hs, rowOff_natCast r' stride (by omega) hs]
  have h := row_le (r + 1) r' stride hr
  rw [Nat.add_mul, Nat.one_mul] at h
  omega

theorem toInt32_eq_natCast {x W : Nat} (h : toInt32 x = (W : Int)) : W < 2147483648 := by
  unfold toInt32 INT_MODULUS at h
  split at h <;> omega

/-! ## The unpacker as a whole -/

theorem decode_null_handle (bs : Option Buf) (n : Nat) (y u v : Buf) (ys us vs : Int) :
    aurora_decoder_decode none bs n y u v ys us vs = some (decFail (-1) y u v) := by
  cases bs <;> rfl

theorem decode_null_source (dec : Option DecCtx) (n : Nat) (y u v : Buf) (ys us vs : Int) :
    aurora_decoder_decode dec none n y u v ys us vs = some (decFail (-1) y u v) := by
  cases dec <;> rfl

theorem decode_short (d : DecCtx) (b : Buf) (n : Nat) (y u v : Buf) (ys us vs : Int)
    (h : n < 16) :
    aurora_decoder_decode (some d) (some b) n y u v ys us vs = some (decFail (-1) y u v) := by
  unfold aurora_decoder_decode
  simp only [if_pos h]

/-- With a readable 16-byte header the unpacker is the size check followed by
the three row loops. -/
theorem decode_header (d : DecCtx) (b : Buf) (n : Nat) (y u v : Buf) (ys us vs : Int)
    (wbits hbits fps : Nat) (hn : 16 ≤ n)
    (hw : load32 b 0 = some wbits) (hh : load32 b 4 = some hbits)
    (hf : load32 b 8 = some fps) :
    aurora_decoder_decode (some d) (some b) n y u v ys us vs =
      if n < needSize (toInt32 wbits) (toInt32 hbits) then some (decFail (-2) y u v)
      else
        (forLoop (toInt32 hbits).toNat (decRow b ys (toInt32 wbits))
          { dst := y, p := 16, trace := [] }).bind fun s1 =>
        (forLoop ((toInt32 hbits).tdiv 2).toNat (decRow b us ((toInt32 wbits).tdiv 2))
          { dst := u, p := s1.p, trace := s1.trace }).bind fun s2 =>
        (forLoop ((toInt32 hbits).tdiv 2).toNat (decRow b vs ((toInt32 wbits).tdiv 2))
          { dst := v, p := s2.p, trace := s2.trace }).bind fun s3 =>
        some { status := 0, y := s1.dst, u := s2.dst, v := s3.dst,
               ow := some (toInt32 wbits), oh := some (toInt32 hbits), ofps := some fps,
               trace := s3.trace } := by
  unfold aurora_decoder_decode
  simp only [if_neg (Nat.not_lt.mpr hn), hw, hh, hf, Option.some_bind]

theorem load32_ok (b : Buf) (off : Nat) (h : off + 4 ≤ b.size) : ∃ x, load32 b off = some x := by
  unfold load32
  rw [if_pos h]
  exact ⟨_, rfl⟩

/-- Everything a successful unpack of a frame whose header declares a width
`W >= 0` and a height `H >= 0` does, for non-negative destination strides. -/
theorem decode_nat (d : DecCtx) (b : Buf) (n : Nat) (y u v : Buf)
    (W H ys us vs wbits hbits F : Nat)
    (hw : load32 b 0 = some wbits) (hW : toInt32 wbits = (W : Int))
    (hh : load32 b 4 = some hbits) (hH : toInt32 hbits = (H : Int))
    (hf : load32 b 8 = some F)
    (hneed : 16 + W * H + 2 * ((W / 2) * (H / 2)) ≤ n) (hsz : n ≤ b.size)
    (hys : ys < 2147483648) (hus : us < 2147483648) (hvs : vs < 2147483648)
    (hy : PlaneFits y ys W H) (hu : PlaneFits u us (W / 2) (H / 2))
    (hv : PlaneFits v vs (W / 2) (H / 2)) :
    ∃ res, aurora_decoder_decode (some d) (some b) n y u v ys us vs = some res ∧
      res.status = 0 ∧ res.ow = some (W : Int) ∧ res.oh = some (H : Int) ∧
      res.ofps = some F ∧
      res.y.size = y.size ∧ res.u.size = u.size ∧ res.v.size = v.size ∧
      (W ≤ ys → ∀ r c, r < H → c < W → res.y.data (r * ys + c) = b.data (16 + r * W + c)) ∧
      (W / 2 ≤ us → ∀ r c, r < H / 2 → c < W / 2 →
        res.u.data (r * us + c) = b.data (16 + W * H + r * (W / 2) + c)) ∧
      (W / 2 ≤ vs → ∀ r c, r < H / 2 → c < W / 2 →
        res.v.data (r * vs + c) = b.data (16 + W * H + (W / 2) * (H / 2) + r * (W / 2) + c)) ∧
      (∀ i, (∀ r, r < H → ¬ (r * ys ≤ i ∧ i < r * ys + W)) → res.y.data i = y.data i) ∧
      (∀ i, (∀ r, r < H / 2 → ¬ (r * us ≤ i ∧ i < r * us + W / 2)) →
        res.u.data i = u.data i) ∧
      (∀ i, (∀ r, r < H / 2 → ¬ (r * vs ≤ i ∧ i < r * vs + W / 2)) →
        res.v.data i = v.data i) ∧
      res.trace = (List.range H).map (fun r => Call.memcpy (r * ys) (16 + r * W) W)
        ++ (List.range (H / 2)).map
            (fun r => Call.memcpy (r * us) (16 + W * H + r * (W / 2)) (W / 2))
        ++ (List.range (H / 2)).map
            (fun r => Call.memcpy (r * vs) (16 + W * H + (W / 2) * (H / 2) + r * (W / 2))
              (W / 2)) := by
  have hWlt := toInt32_eq_natCast hW
  have hHlt := toInt32_eq_natCast hH
  have hnd := needSize_natCast W H hWlt hHlt
  have hlt := need_lt W H hWlt hHlt
  have hmc : H * W = W * H := Nat.mul_comm H W
  have hmc2 : H / 2 * (W / 2) = W / 2 * (H / 2) := Nat.mul_comm _ _
  have hM : SIZE_MODULUS = 18446744073709551616 := rfl
  have hrun := decode_header d b n y u v ys us vs wbits hbits F (by omega) hw hh hf
  rw [hW, hH, hnd, if_neg (by omega)] at hrun
  simp only [tdiv_two_natCast, Int.toNat_ofNat] at hrun
  obtain ⟨s1, h1⟩ := decLoop_ok b ys W hys H { dst := y, p := 16, trace := [] }
    (by omega) (by simp only; omega) (by simp only; omega) hy
  obtain ⟨p1, z1, _, c1, f1, t1⟩ := decLoop_some b ys W H _ s1 (by simp only; omega) h1
  simp only at p1 z1 c1 f1 t1
  obtain ⟨s2, h2⟩ := decLoop_ok b us (W / 2) hus (H / 2)
    { dst := u, p := s1.p, trace := s1.trace }
    (by omega) (by simp only; omega) (by simp only; omega) hu
  obtain ⟨p2, z2, _, c2, f2, t2⟩ := decLoop_some b us (W / 2) (H / 2) _ s2
    (by simp only; omega) h2
  simp only at p2 z2 c2 f2 t2
  obtain ⟨s3, h3⟩ := decLoop_ok b vs (W / 2) hvs (H / 2)
    { dst := v, p := s2.p, trace := s2.trace }
    (by omega) (by simp only; omega) (by simp only; omega) hv
  obtain ⟨p3, z3, _, c3, f3, t3⟩ := decLoop_some b vs (W / 2) (H / 2) _ s3
    (by simp only; omega) h3
  simp only at p3 z3 c3 f3 t3
  rw [h1, Option.some_bind, h2, Option.some_bind, h3, Option.some_bind] at hrun
  have g : ∀ (m S : Nat) (hm : m ≤ 2147483648) (hS : S < 2147483648) (q k : Nat),
      (List.range m).map (fun (r : Nat) => Call.memcpy
        (sizeMul (toSize (r : Int)) (toSize (S : Int))) (q + r * k) k)
      = (List.range m).map (fun r => Call.memcpy (r * S) (q + r * k) k) := by
    intro m S hm hS q k
    apply List.map_congr_left
    intro r hr
    rw [rowOff_natCast r S (by have := List.mem_range.mp hr; omega) hS]
  refine ⟨_, hrun, rfl, rfl, rfl, rfl, z1, z2, z3, ?_, ?_, ?_, ?_, ?_, ?_, ?_⟩
  · intro hle r c hr hc
    show s1.dst.data _ = _
    rw [← rowOff_natCast r ys (by omega) hys]
    exact c1 (rows_disjoint ys W H hys (by omega) hle) r c hr hc
  · intro hle r c hr hc
    show s2.dst.data _ = _
    rw [← rowOff_natCast r us (by omega) hus,
      c2 (rows_disjoint us (W / 2) (H / 2) hus (by omega) hle) r c hr hc, p1, hmc]
  · intro hle r c hr hc
    show s3.dst.data _ = _
    rw [← rowOff_natCast r vs (by omega) hvs,
      c3 (rows_disjoint vs (W / 2) (H / 2) hvs (by omega) hle) r c hr hc, p2, p1, hmc, hmc2]
  · intro i hi
    show s1.dst.data i = _
    exact f1 i (fun r hr => by rw [rowOff_natCast r ys (by omega) hys]; exact hi r hr)
  · intro i hi
    show s2.dst.data i = _
    exact f2 i (fun r hr => by rw [rowOff_natCast r us (by omega) hus]; exact hi r hr)
  · intro i hi
    show s3.dst.data i = _
    exact f3 i (fun r hr => by rw [rowOff_natCast r vs (by omega) hvs]; exact hi r hr)
  · show s3.trace = _
    rw [t3, t2, t1, p2, p1, hmc, hmc2, g H ys (by omega) hys, g (H / 2) us (by omega) hus,
      g (H / 2) vs (by omega) hvs]
    simp

/-! ## Exact size arithmetic for arbitrary `int` geometry -/

theorem toSize_cast (x : Int) : ((toSize x : Nat) : Int) = x % (SIZE_MODULUS : Int) := by
  unfold toSize
  exact Int.toNat_of_nonneg (Int.emod_nonneg _ (by unfold SIZE_MODULUS; decide))

theorem sizeMul_toSize_cast (a b : Int) :
    ((sizeMul (toSize a) (toSize b) : Nat) : Int) = (a * b) % (SIZE_MODULUS : Int) := by
  unfold sizeMul
  rw [Int.natCast_mod, Int.natCast_mul, toSize_cast, toSize_cast, ← Int.mul_emod]

/-- The size both checks compare against is the exact integer
`16 + w*h + 2*(w/2)*(h/2)` reduced modulo `2^64`. -/
theorem needSize_cast (w h : Int) :
    ((needSize w h : Nat) : Int)
      = (16 + w * h + 2 * (w.tdiv 2) * (h.tdiv 2)) % (SIZE_MODULUS : Int) := by
  unfold needSize
  simp only [sizeAdd]
  rw [Int.natCast_mod, Int.natCast_add, Int.natCast_mod, Int.natCast_add, Int.natCast_mod,
    Int.natCast_add, sizeMul_toSize_cast, sizeMul_toSize_cast]
  simp only [Int.emod_add_emod, Int.add_emod_emod, Nat.cast_ofNat]
  congr 1
  ring

theorem tdiv_two_bounds (x : Int) (h : IsInt32 x) :
    -1073741824 ≤ x.tdiv 2 ∧ x.tdiv 2 ≤ 1073741823 := by
  unfold IsInt32 INT_MIN INT_MAX at h
  rcases Int.le_total 0 x with h0 | h0
  · rw [Int.tdiv_eq_ediv h0 (by decide)]
    omega
  · have e : x.tdiv 2 = -((-x) / 2) := by
      have := Int.neg_tdiv x 2
      rw [Int.tdiv_eq_ediv (by omega) (by decide)] at this
      omega
    rw [e]
    omega

theorem int_mul_bounds (a b A B : Int) (ha : -A ≤ a ∧ a ≤ A) (hb : -B ≤ b ∧ b ≤ B) :
    -(A * B) ≤ a * b ∧ a * b ≤ A * B := by
  have h1 : |a| ≤ A := abs_le.mpr ha
  have h2 : |b| ≤ B := abs_le.mpr hb
  have h3 : |a * b| ≤ A * B := by
    rw [abs_mul]
    exact mul_le_mul h1 h2 (abs_nonneg b) (le_trans (abs_nonneg a) h1)
  exact abs_le.mp h3

/-- For `int` geometry the exact required size lies strictly between
`-2^63` and `2^63`. -/
theorem exact_need_bounds (w h : Int) (hw : IsInt32 w) (hh : IsInt32 h) :
    -9223372036854775808 < 16 + w * h + 2 * (w.tdiv 2) * (h.tdiv 2) ∧
      16 + w * h + 2 * (w.tdiv 2) * (h.tdiv 2) < 9223372036854775808 := by
  have b1 := int_mul_bounds w h 2147483648 2147483648
    (by unfold IsInt32 INT_MIN INT_MAX at hw; omega)
    (by unfold IsInt32 INT_MIN INT_MAX at hh; omega)
  have t1 := tdiv_two_bounds w hw
  have t2 := tdiv_two_bounds h hh
  have b2 := int_mul_bounds (w.tdiv 2) (h.tdiv 2) 1073741824 1073741824
    (by omega) (by omega)
  rw [Int.mul_assoc]
  norm_num at b1 b2
  omega

theorem toInt32_isInt32 (x : Nat) : IsInt32 (toInt32 x) := by
  unfold IsInt32 INT_MIN INT_MAX toInt32 INT_MODULUS
  split <;> omega

/-- When the exact required size is not negative, the checks compare against
exactly that number. -/
theorem needSize_exact (w h : Int) (hw : IsInt32 w) (hh : IsInt32 h)
    (h0 : 0 ≤ 16 + w * h + 2 * (w.tdiv 2) * (h.tdiv 2)) :
    ((needSize w h : Nat) : Int) = 16 + w * h + 2 * (w.tdiv 2) * (h.tdiv 2) := by
  have hb := exact_need_bounds w h hw hh
  rw [needSize_cast]
  apply Int.emod_eq_of_lt h0
  unfold SIZE_MODULUS
  omega

/-! ## Lemmas on recorded calls -/

theorem bytesWritten_append (a b : List Call) :
    bytesWritten (a ++ b) = bytesWritten a + bytesWritten b := by
  simp [bytesWritten, List.map_append, List.sum_append]

theorem bytesWritten_rows (b w : Nat) (s : Nat → Nat) (n : Nat) :
    bytesWritten ((List.range n).map (fun r => Call.memcpy (b + r * w) (s r) w)) = n * w := by
  induction n with
  | zero => simp [bytesWritten]
  | succ n ih =>
    rw [List.range_succ, List.map_append, bytesWritten_append, ih]
    simp [bytesWritten, Call.len, Nat.add_mul]

theorem row_decomp (w n j : Nat) (hj : j < n * w) : ∃ r c, r < n ∧ c < w ∧ j = r * w + c := by
  have hw : 0 < w := by
    rcases Nat.eq_zero_or_pos w with h | h
    · subst h; simp at hj
    · exact h
  refine ⟨j / w, j % w, (Nat.div_lt_iff_lt_mul hw).mpr hj, Nat.mod_lt _ hw, ?_⟩
  have := Nat.div_add_mod j w
  rw [Nat.mul_comm] at this
  omega

theorem rows_writes (b w : Nat) (s : Nat → Nat) (n i : Nat) :
    (∃ c, c ∈ (List.range n).map (fun r => Call.memcpy (b + r * w) (s r) w) ∧ c.writes i)
      ↔ b ≤ i ∧ i < b + n * w := by
  constructor
  · rintro ⟨c, hc, hi⟩
    obtain ⟨r, hr, rfl⟩ := List.mem_map.mp hc
    have hr' := List.mem_range.mp hr
    simp only [Call.writes, Call.dst, Call.len] at hi
    have := row_le (r + 1) n w hr'
    rw [Nat.add_mul, Nat.one_mul] at this
    omega
  · rintro ⟨h1, h2⟩
    obtain ⟨r, c, hr, hc, hj⟩ := row_decomp w n (i - b) (by omega)
    refine ⟨Call.memcpy (b + r * w) (s r) w, List.mem_map.mpr ⟨r, List.mem_range.mpr hr, rfl⟩, ?_⟩
    simp only [Call.writes, Call.dst, Call.len]
    omega

/-! ## Claims -/

/-- Claim C1. Round trip with arbitrary strides. A `W x H` frame packed from
source planes with row strides `ys, us, vs` into a destination of capacity at
least `16 + W*H + 2*(W/2)*(H/2)`, then unpacked from that output (the reported
size as its length) into planes with other row strides `ys2, us2, vs2`, gives
status 0 on both sides, reports `(W, H, F)` and reproduces every sample of the
luma plane and of both chroma planes. Width, height and strides are `int`
values that are not negative, `F` is a 32-bit pattern, and every plane object
holds the rows its stride describes. The parity and positivity of `W` and `H`
and the lower bounds on the source strides play no role. -/
theorem roundtrip_arbitrary_strides (W H F ys us vs ys2 us2 vs2 : Nat)
    (y u v out y2 u2 v2 : Buf) (cap : Nat) (d : DecCtx)
    (hW : (W : Int) ≤ INT_MAX) (hH : (H : Int) ≤ INT_MAX) (hF : F < 4294967296)
    (hys2 : W ≤ ys2) (hus2 : W / 2 ≤ us2) (hvs2 : W / 2 ≤ vs2)
    (iys : (ys : Int) ≤ INT_MAX) (ius : (us : Int) ≤ INT_MAX) (ivs : (vs : Int) ≤ INT_MAX)
    (iys2 : (ys2 : Int) ≤ INT_MAX) (ius2 : (us2 : Int) ≤ INT_MAX)
    (ivs2 : (vs2 : Int) ≤ INT_MAX)
    (hcap : 16 + W * H + 2 * ((W / 2) * (H / 2)) ≤ cap) (hout : cap ≤ out.size)
    (fy : PlaneFits y ys W H) (fu : PlaneFits u us (W / 2) (H / 2))
    (fv : PlaneFits v vs (W / 2) (H / 2))
    (fy2 : PlaneFits y2 ys2 W H) (fu2 : PlaneFits u2 us2 (W / 2) (H / 2))
    (fv2 : PlaneFits v2 vs2 (W / 2) (H / 2)) :
    ∃ e sz r,
      aurora_encoder_encode (aurora_encoder_create true W H F) y u v ys us vs out cap = some e ∧
      e.status = 0 ∧ e.out_size = some sz ∧
      aurora_decoder_decode (some d) (some e.out) sz y2 u2 v2 ys2 us2 vs2 = some r ∧
      r.status = 0 ∧ r.ow = some (W : Int) ∧ r.oh = some (H : Int) ∧ r.ofps = some F ∧
      (∀ row col, row < H → col < W →
        r.y.data (row * ys2 + col) = y.data (row * ys + col)) ∧
      (∀ row col, row < H / 2 → col < W / 2 →
        r.u.data (row * us2 + col) = u.data (row * us + col)) ∧
      (∀ row col, row < H / 2 → col < W / 2 →
        r.v.data (row * vs2 + col) = v.data (row * vs + col)) := by
  unfold INT_MAX at hW hH iys ius ivs iys2 ius2 ivs2
  obtain ⟨e, he, hst, hsz, hosz, lw, lh, lf, _, ey, eu, ev, _, _⟩ :=
    encode_nat W H F ys us vs y u v out cap (by omega) (by omega) (by omega) (by omega)
      (by omega) hcap (by omega) fy fu fv
  rw [Nat.mod_eq_of_lt hF] at lf
  have tW : toInt32 W = (W : Int) := by
    unfold toInt32 INT_MODULUS
    rw [Nat.mod_eq_of_lt (by omega), if_pos (by omega)]
  have tH : toInt32 H = (H : Int) := by
    unfold toInt32 INT_MODULUS
    rw [Nat.mod_eq_of_lt (by omega), if_pos (by omega)]
  obtain ⟨r, hr, rst, row, roh, rof, _, _, _, dy, du, dv, _, _, _, _⟩ :=
    decode_nat d e.out (16 + W * H + 2 * ((W / 2) * (H / 2))) y2 u2 v2 W H ys2 us2 vs2 W H F
      lw tW lh tH lf (le_refl _) (by omega) (by omega) (by omega) (by omega) fy2 fu2 fv2
  refine ⟨e, _, r, he, hst, hsz, hr, rst, row, roh, rof, ?_, ?_, ?_⟩
  · intro a b ha hb
    rw [dy hys2 a b ha hb, ey a b ha hb]
  · intro a b ha hb
    rw [du hus2 a b ha hb, eu a b ha hb]
  · intro a b ha hb
    rw [dv hvs2 a b ha hb, ev a b ha hb]

/-- Witness for C1: a 4 x 2 frame at 30.0 fps, source strides 6, 3, 3 and
destination strides 5, 4, 2. -/
theorem roundtrip_arbitrary_strides_witness :
    ∃ e sz r,
      aurora_encoder_encode (aurora_encoder_create true 4 2 1106247680)
        (rampBuf 16 0) (rampBuf 8 100) (rampBuf 8 200) 6 3 3 (constBuf 40 0) 28 = some e ∧
      e.status = 0 ∧ e.out_size = some sz ∧
      aurora_decoder_decode (some { d := 0 }) (some e.out) sz
        (constBuf 20 0) (constBuf 20 0) (constBuf 20 0) 5 4 2 = some r ∧
      r.status = 0 ∧ r.ow = some 4 ∧ r.oh = some 2 ∧ r.ofps = some 1106247680 ∧
      (∀ row col, row < 2 → col < 4 →
        r.y.data (row * 5 + col) = (rampBuf 16 0).data (row * 6 + col)) ∧
      (∀ row col, row < 2 / 2 → col < 4 / 2 →
        r.u.data (row * 4 + col) = (rampBuf 8 100).data (row * 3 + col)) ∧
      (∀ row col, row < 2 / 2 → col < 4 / 2 →
        r.v.data (row * 2 + col) = (rampBuf 8 200).data (row * 3 + col)) :=
  roundtrip_arbitrary_strides 4 2 1106247680 6 3 3 5 4 2
    (rampBuf 16 0) (rampBuf 8 100) (rampBuf 8 200) (constBuf 40 0)
    (constBuf 20 0) (constBuf 20 0) (constBuf 20 0) 28 { d := 0 }
    (by decide) (by decide) (by decide) (by decide) (by decide) (by decide)
    (by decide) (by decide) (by decide) (by decide) (by decide) (by decide)
    (by decide) (by decide) (by decide) (by decide) (by decide) (by decide)
    (by decide) (by decide)

/-- Claim C2. Size pre-check is atomic. For a context with `0 < W`, `0 < H` (both
`int`) and a capacity below `16 + W*H + 2*(W/2)*(H/2)`, the packer returns -2,
performs no store at all (no `memcpy`/`memset` call), leaves the destination as
it was and does not store to `*out_size`, whatever the planes and strides. -/
theorem encode_buffer_too_small_atomic (c : EncCtx) (y u v : Buf) (ys us vs : Int)
    (out : Buf) (cap : Nat)
    (hw0 : 0 < c.w) (hw : c.w ≤ INT_MAX) (hh0 : 0 < c.h) (hh : c.h ≤ INT_MAX)
    (hcap : (cap : Int) < 16 + c.w * c.h + 2 * (c.w.tdiv 2) * (c.h.tdiv 2)) :
    aurora_encoder_encode (some c) y u v ys us vs out cap
      = some { status := -2, out := out, out_size := none, trace := [] } := by
  unfold INT_MAX at hw hh
  apply encode_small
  have hx := needSize_exact c.w c.h (by unfold IsInt32 INT_MIN INT_MAX; omega)
    (by unfold IsInt32 INT_MIN INT_MAX; omega) (by omega)
  omega

/-- Witness for C2: a 4 x 2 frame needs 28 bytes; capacity 27 is refused. -/
theorem encode_buffer_too_small_atomic_witness :
    aurora_encoder_encode (some { w := 4, h := 2, fps := 1106247680 })
        (rampBuf 16 0) (rampBuf 8 100) (rampBuf 8 200) 6 3 3 (constBuf 40 9) 27
      = some { status := -2, out := constBuf 40 9, out_size := none, trace := [] } :=
  encode_buffer_too_small_atomic { w := 4, h := 2, fps := 1106247680 }
    (rampBuf 16 0) (rampBuf 8 100) (rampBuf 8 200) 6 3 3 (constBuf 40 9) 27
    (by decide) (by decide) (by decide) (by decide) (by decide)

/-- Claim C3. Truncation detection is atomic. For a source of `n >= 16` bytes
whose header declares the `int` values `w` and `h` (of any sign) with
`16 + w*h + 2*(w/2)*(h/2) > n` in exact integer arithmetic (`/` truncating),
the unpacker returns -2, makes no `memcpy` call, leaves the three destination
planes as they were and stores nothing to the width, height and frame-rate
outputs. -/
theorem decode_truncated_atomic (d : DecCtx) (b : Buf) (n : Nat) (y u v : Buf)
    (ys us vs : Int) (w h : Int)
    (hn : 16 ≤ n) (hsz : n ≤ b.size)
    (hw : (load32 b 0).map toInt32 = some w) (hh : (load32 b 4).map toInt32 = some h)
    (htr : (n : Int) < 16 + w * h + 2 * (w.tdiv 2) * (h.tdiv 2)) :
    aurora_decoder_decode (some d) (some b) n y u v ys us vs
      = some { status := -2, y := y, u := u, v := v, ow := none, oh := none, ofps := none,
               trace := [] } := by
  obtain ⟨wbits, hwb, rfl⟩ := Option.map_eq_some'.mp hw
  obtain ⟨hbits, hhb, rfl⟩ := Option.map_eq_some'.mp hh
  obtain ⟨fps, hf⟩ := load32_ok b 8 (by omega)
  rw [decode_header d b n y u v ys us vs wbits hbits fps hn hwb hhb hf]
  have hx := needSize_exact (toInt32 wbits) (toInt32 hbits) (toInt32_isInt32 _)
    (toInt32_isInt32 _) (by omega)
  rw [if_pos (by omega)]
  rfl

/-- Witness for C3: 20 bytes of a frame that declares 28. -/
theorem decode_truncated_atomic_witness :
    aurora_decoder_decode (some { d := 0 }) (some truncatedFrame) 20
        (constBuf 20 7) (constBuf 20 8) (constBuf 20 9) 5 4 2
      = some { status := -2, y := constBuf 20 7, u := constBuf 20 8, v := constBuf 20 9,
               ow := none, oh := none, ofps := none, trace := [] } :=
  decode_truncated_atomic { d := 0 } truncatedFrame 20
    (constBuf 20 7) (constBuf 20 8) (constBuf 20 9) 5 4 2 4 2
    (by decide) (by decide) (by decide) (by decide) (by decide)

/-- Claim C4. Reported size equals required size. For `int` dimensions `0 < W`,
`0 < H` (odd ones included) and a capacity of at least
`16 + W*H + 2*(W/2)*(H/2)` (integer division), the packer returns 0 and sets
`*out_size` to exactly that number; its `memcpy`/`memset` calls store that many
bytes in total and the offsets they store to are exactly those below that
number. -/
theorem encode_reports_required_size (W H F ys us vs : Nat) (y u v out : Buf) (cap : Nat)
    (hW0 : 0 < W) (hH0 : 0 < H)
    (hW : (W : Int) ≤ INT_MAX) (hH : (H : Int) ≤ INT_MAX)
    (iys : (ys : Int) ≤ INT_MAX) (ius : (us : Int) ≤ INT_MAX) (ivs : (vs : Int) ≤ INT_MAX)
    (hcap : 16 + W * H + 2 * ((W / 2) * (H / 2)) ≤ cap) (hout : cap ≤ out.size)
    (fy : PlaneFits y ys W H) (fu : PlaneFits u us (W / 2) (H / 2))
    (fv : PlaneFits v vs (W / 2) (H / 2)) :
    ∃ res,
      aurora_encoder_encode (some { w := W, h := H, fps := F }) y u v ys us vs out cap
        = some res ∧
      res.status = 0 ∧
      res.out_size = some (16 + W * H + 2 * ((W / 2) * (H / 2))) ∧
      bytesWritten res.trace = 16 + W * H + 2 * ((W / 2) * (H / 2)) ∧
      ∀ i, (∃ c, c ∈ res.trace ∧ c.writes i) ↔ i < 16 + W * H + 2 * ((W / 2) * (H / 2)) := by
  unfold INT_MAX at hW hH iys ius ivs
  obtain ⟨e, he, hst, hsz, _, _, _, _, _, _, _, _, _, ht, _⟩ :=
    encode_nat W H F ys us vs y u v out cap (by omega) (by omega) (by omega) (by omega)
      (by omega) hcap (by omega) fy fu fv
  have hmc : H * W = W * H := Nat.mul_comm H W
  have hmc2 : H / 2 * (W / 2) = W / 2 * (H / 2) := Nat.mul_comm _ _
  refine ⟨e, he, hst, hsz, ?_, ?_⟩
  · rw [ht, bytesWritten_append, bytesWritten_append, bytesWritten_append,
      bytesWritten_rows 16 W (fun r => r * ys) H,
      bytesWritten_rows (16 + W * H) (W / 2) (fun r => r * us) (H / 2),
      bytesWritten_rows (16 + W * H + W / 2 * (H / 2)) (W / 2) (fun r => r * vs) (H / 2)]
    simp only [bytesWritten, List.map, Call.len, List.sum_cons, List.sum_nil]
    omega
  · intro i
    rw [ht]
    have r1 := rows_writes 16 W (fun r => r * ys) H i
    have r2 := rows_writes (16 + W * H) (W / 2) (fun r => r * us) (H / 2) i
    have r3 := rows_writes (16 + W * H + W / 2 * (H / 2)) (W / 2) (fun r => r * vs) (H / 2) i
    constructor
    · rintro ⟨c, hc, hi⟩
      rcases List.mem_append.mp hc with hc | hc
      · rcases List.mem_append.mp hc with hc | hc
        · rcases List.mem_append.mp hc with hc | hc
          · simp only [List.mem_cons, List.mem_singleton, List.not_mem_nil, or_false] at hc
            rcases hc with rfl | rfl | rfl | rfl <;>
              simp only [Call.writes, Call.dst, Call.len] at hi <;> omega
          · have := r1.mp ⟨c, hc, hi⟩
            omega
        · have := r2.mp ⟨c, hc, hi⟩
          omega
      · have := r3.mp ⟨c, hc, hi⟩
        omega
    · intro hi
      by_cases h16 : i < 16
      · by_cases h4 : i < 4
        · exact ⟨Call.memcpy 0 0 4, by simp, by simp only [Call.writes, Call.dst, Call.len]; omega⟩
        · by_cases h8 : i < 8
          · exact ⟨Call.memcpy 4 0 4, by simp,
              by simp only [Call.writes, Call.dst, Call.len]; omega⟩
          · by_cases h12 : i < 12
            · exact ⟨Call.memcpy 8 0 4, by simp,
                by simp only [Call.writes, Call.dst, Call.len]; omega⟩
            · exact ⟨Call.memset 12 4, by simp,
                by simp only [Call.writes, Call.dst, Call.len]; omega⟩
      · by_cases hY : i < 16 + W * H
        · obtain ⟨c, hc, hw⟩ := r1.mpr ⟨by omega, by omega⟩
          exact ⟨c, List.mem_append_left _ (List.mem_append_left _
            (List.mem_append_right _ hc)), hw⟩
        · by_cases hU : i < 16 + W * H + W / 2 * (H / 2)
          · obtain ⟨c, hc, hw⟩ := r2.mpr ⟨by omega, by omega⟩
            exact ⟨c, List.mem_append_left _ (List.mem_append_right _ hc), hw⟩
          · obtain ⟨c, hc, hw⟩ := r3.mpr ⟨by omega, by omega⟩
            exact ⟨c, List.mem_append_right _ hc, hw⟩

/-- Witness for C4: for `W = 4`, `H = 2`, `F = 30.0` the packer reports 28
bytes, the sum `16 + 8 + 2 + 2`. -/
theorem encode_reports_required_size_witness :
    ∃ res,
      aurora_encoder_encode (some { w := 4, h := 2, fps := 1106247680 })
        (rampBuf 16 0) (rampBuf 8 100) (rampBuf 8 200) 6 3 3 (constBuf 40 0) 28 = some res ∧
      res.status = 0 ∧ res.out_size = some 28 ∧ bytesWritten res.trace = 28 ∧
      ∀ i, (∃ c, c ∈ res.trace ∧ c.writes i) ↔ i < 28 :=
  encode_reports_required_size 4 2 1106247680 6 3 3
    (rampBuf 16 0) (rampBuf 8 100) (rampBuf 8 200) (constBuf 40 0) 28
    (by decide) (by decide) (by decide) (by decide) (by decide) (by decide) (by decide)
    (by decide) (by decide) (by decide) (by decide) (by decide)

theorem forLoop_first {σ : Type} {body : Nat → σ → Option σ} :
    ∀ (n : Nat) {s s' : σ}, 0 < n → forLoop n body s = some s' → ∃ s1, body 0 s = some s1 := by
  intro n
  induction n with
  | zero => intro s s' h; omega
  | succ n ih =>
    intro s s' _ h
    obtain ⟨s1, h1, h2⟩ := forLoop_succ_some h
    rcases Nat.eq_zero_or_pos n with h0 | h0
    · subst h0
      simp only [forLoop, Option.some.injEq] at h1
      subst h1
      exact ⟨s', h2⟩
    · exact ih h0 h1

/-- A packer row of negative length is a `memcpy` of more than `PTRDIFF_MAX`
bytes: it cannot stay inside the destination. -/
theorem encRow_neg_len (src : Buf) (stride w : Int) (r : Nat) (st : EncState)
    (hw : w < 0) (hi : IsInt32 w) (hsz : st.out.size ≤ PTRDIFF_MAX) :
    encRow src stride w r st = none := by
  have hc := toSize_cast w
  unfold IsInt32 INT_MIN INT_MAX at hi
  unfold PTRDIFF_MAX at hsz
  unfold SIZE_MODULUS at hc
  unfold encRow EncState.copy memcpy
  rw [if_neg (by omega)]

theorem tdiv_two_nonpos (x : Int) (h : x ≤ 0) : x.tdiv 2 ≤ 0 := by
  have := Int.neg_tdiv x 2
  rw [Int.tdiv_eq_ediv (by omega) (by decide)] at this
  omega

/-- The three packer loops never store below offset 16 and never resize the
destination, for any `int` geometry, as long as the destination is an object
of at most `PTRDIFF_MAX` bytes. -/
theorem encLoops_keep_header {w h : Int} {y u v : Buf} {ys us vs : Int}
    {s0 s1 s2 s3 : EncState} (hw : IsInt32 w) (hh : IsInt32 h)
    (hsz : s0.out.size ≤ PTRDIFF_MAX)
    (h1 : forLoop h.toNat (encRow y ys w) { out := s0.out, p := 16, trace := s0.trace }
        = some s1)
    (h2 : forLoop (h.tdiv 2).toNat (encRow u us (w.tdiv 2)) s1 = some s2)
    (h3 : forLoop (h.tdiv 2).toNat (encRow v vs (w.tdiv 2)) s2 = some s3) :
    s3.out.size = s0.out.size ∧ ∀ i, i < 16 → s3.out.data i = s0.out.data i := by
  rcases Int.lt_or_le 0 h with hpos | hneg
  · rcases Int.lt_or_le w 0 with wneg | wpos
    · exfalso
      obtain ⟨s, hs⟩ := forLoop_first h.toNat (by omega) h1
      rw [encRow_neg_len y ys w 0 { out := s0.out, p := 16, trace := s0.trace } wneg hw hsz] at hs
      cases hs
    · obtain ⟨W, rfl⟩ := Int.eq_ofNat_of_zero_le wpos
      obtain ⟨H, rfl⟩ := Int.eq_ofNat_of_zero_le (Int.le_of_lt hpos)
      unfold IsInt32 INT_MIN INT_MAX at hw hh
      simp only [tdiv_two_natCast, Int.toNat_ofNat] at h1 h2 h3
      have hlt := need_lt W H (by omega) (by omega)
      have hmc : H * W = W * H := Nat.mul_comm H W
      have hmc2 : H / 2 * (W / 2) = W / 2 * (H / 2) := Nat.mul_comm _ _
      have hM : SIZE_MODULUS = 18446744073709551616 := rfl
      obtain ⟨p1, z1, _, _, f1, _⟩ := encLoop_some y ys W H _ s1 (by simp only; omega) h1
      simp only at p1 z1 f1
      obtain ⟨p2, z2, _, _, f2, _⟩ := encLoop_some u us (W / 2) (H / 2) _ s2 (by omega) h2
      obtain ⟨p3, z3, _, _, f3, _⟩ := encLoop_some v vs (W / 2) (H / 2) _ s3 (by omega) h3
      refine ⟨by rw [z3, z2, z1], fun i hi => ?_⟩
      rw [f3 i (by omega), f2 i (by omega), f1 i (by omega)]
  · have ht := tdiv_two_nonpos h hneg
    have e1 : h.toNat = 0 := by omega
    have e2 : (h.tdiv 2).toNat = 0 := by omega
    rw [e1] at h1
    rw [e2] at h2 h3
    simp only [forLoop, Option.some.injEq] at h1 h2 h3
    subst h1 h2 h3
    exact ⟨rfl, fun _ _ => rfl⟩

/-- Claim C5. Header layout. After every successful pack on a context created
with `int` dimensions `(W, H)` (of any sign) and frame-rate bits `F`, whatever
the destination held before: byte `i` (`i < 4`) is digit `i` in base 256 of the
32-bit pattern of `W`, byte `4 + i` that of `H`, byte `8 + i` that of `F`, and
bytes 12..15 are zero. Read back as little-endian words, offsets 0, 4 and 8
hold the patterns of `W` (which denotes `W`), of `H` and the 32 bits of `F`.
The destination is an object of at most `PTRDIFF_MAX` bytes. -/
theorem encode_header_layout (W H : Int) (F : Nat) (y u v : Buf) (ys us vs : Int)
    (out : Buf) (cap : Nat) (res : EncResult)
    (hW : IsInt32 W) (hH : IsInt32 H) (hobj : out.size ≤ PTRDIFF_MAX)
    (hrun : aurora_encoder_encode (aurora_encoder_create true W H F) y u v ys us vs out cap
      = some res)
    (hok : res.status = 0) :
    (∀ i, i < 4 → (res.out.data i).val = toU32 W / 256 ^ i % 256 ∧
      (res.out.data (4 + i)).val = toU32 H / 256 ^ i % 256 ∧
      (res.out.data (8 + i)).val = F / 256 ^ i % 256) ∧
      (∀ i, 12 ≤ i → i < 16 → res.out.data i = 0) ∧
      load32 res.out 0 = some (toU32 W) ∧ toInt32 (toU32 W) = W ∧
      load32 res.out 4 = some (toU32 H) ∧ toInt32 (toU32 H) = H ∧
      load32 res.out 8 = some (F % 4294967296) := by
  have hc : aurora_encoder_create true W H F = some { w := W, h := H, fps := F } := rfl
  rw [hc] at hrun
  by_cases hcap : cap < needSize W H
  · rw [encode_small { w := W, h := H, fps := F } y u v ys us vs out cap hcap] at hrun
    cases hrun
    simp at hok
  · obtain ⟨s0, s1, s2, s3, h0, h1, h2, h3, rfl⟩ := encode_some_inv
      (c := { w := W, h := H, fps := F }) hcap hrun
    obtain ⟨_, zs, lw, lh, lf, lz, _, _⟩ := encHeader_some h0
    obtain ⟨hsz, hlow⟩ := encLoops_keep_header (w := W) (h := H) hW hH (by rw [zs]; exact hobj)
      h1 h2 h3
    refine ⟨?_, ?_, ?_, toInt32_toU32 W hW, ?_, toInt32_toU32 H hH, ?_⟩
    · intro i hi
      obtain ⟨b1, b2, b3⟩ := encHeader_bytes h0 i hi
      show (s3.out.data i).val = _ ∧ (s3.out.data (4 + i)).val = _ ∧
        (s3.out.data (8 + i)).val = _
      rw [hlow i (by omega), hlow (4 + i) (by omega), hlow (8 + i) (by omega), b1, b2, b3]
      exact ⟨rfl, rfl, rfl⟩
    · intro i h12 h16
      show s3.out.data i = 0
      rw [hlow i h16]
      exact lz i h12 h16
    · rw [← lw]; exact load32_congr hsz (fun i hi => hlow i (by omega))
    · rw [← lh]; exact load32_congr hsz (fun i hi => hlow i (by omega))
    · rw [← lf]; exact load32_congr hsz (fun i hi => hlow i (by omega))

/-- Witness for C5: the header of a packed 4 x 2 frame at 30.0 fps, written
over a destination that held the byte 9 everywhere. -/
theorem encode_header_layout_witness :
    ∃ res,
      aurora_encoder_encode (aurora_encoder_create true 4 2 1106247680)
        (rampBuf 16 0) (rampBuf 8 100) (rampBuf 8 200) 6 3 3 (constBuf 40 9) 28 = some res ∧
      (∀ i, i < 4 → (res.out.data i).val = 4 / 256 ^ i % 256 ∧
        (res.out.data (4 + i)).val = 2 / 256 ^ i % 256 ∧
        (res.out.data (8 + i)).val = 1106247680 / 256 ^ i % 256) ∧
      (∀ i, 12 ≤ i → i < 16 → res.out.data i = 0) ∧
      load32 res.out 0 = some 4 ∧ toInt32 4 = 4 ∧
      load32 res.out 4 = some 2 ∧ toInt32 2 = 2 ∧
      load32 res.out 8 = some 1106247680 :=
  ⟨(aurora_encoder_encode (aurora_encoder_create true 4 2 1106247680)
      (rampBuf 16 0) (rampBuf 8 100) (rampBuf 8 200) 6 3 3 (constBuf 40 9) 28).get (by decide),
    (Option.some_get _).symm,
    encode_header_layout 4 2 1106247680 (rampBuf 16 0) (rampBuf 8 100) (rampBuf 8 200) 6 3 3
      (constBuf 40 9) 28 _ (by decide) (by decide) (by decide) (Option.some_get _).symm
      (by decide)⟩

/-- Claim C6. Plane layout. A successful pack of a `W x H` frame (`0 < W`,
`0 < H`) from planes with row strides `ys, us, vs` puts luma sample `(r, c)` at
`16 + r*W + c`, chroma-U sample `(r, c)` at `16 + W*H + r*(W/2) + c` and
chroma-V sample `(r, c)` at `16 + W*H + (W/2)*(H/2) + r*(W/2) + c`: luma, U, V
in that order, row-major, nothing between rows or planes. -/
theorem encode_plane_layout (W H F ys us vs : Nat) (y u v out : Buf) (cap : Nat)
    (hW0 : 0 < W) (hH0 : 0 < H)
    (hW : (W : Int) ≤ INT_MAX) (hH : (H : Int) ≤ INT_MAX)
    (iys : (ys : Int) ≤ INT_MAX) (ius : (us : Int) ≤ INT_MAX) (ivs : (vs : Int) ≤ INT_MAX)
    (hcap : 16 + W * H + 2 * ((W / 2) * (H / 2)) ≤ cap) (hout : cap ≤ out.size)
    (fy : PlaneFits y ys W H) (fu : PlaneFits u us (W / 2) (H / 2))
    (fv : PlaneFits v vs (W / 2) (H / 2)) :
    ∃ res,
      aurora_encoder_encode (some { w := W, h := H, fps := F }) y u v ys us vs out cap
        = some res ∧
      res.status = 0 ∧
      (∀ r c, r < H → c < W → res.out.data (16 + r * W + c) = y.data (r * ys + c)) ∧
      (∀ r c, r < H / 2 → c < W / 2 →
        res.out.data (16 + W * H + r * (W / 2) + c) = u.data (r * us + c)) ∧
      (∀ r c, r < H / 2 → c < W / 2 →
        res.out.data (16 + W * H + (W / 2) * (H / 2) + r * (W / 2) + c)
          = v.data (r * vs + c)) := by
  unfold INT_MAX at hW hH iys ius ivs
  obtain ⟨e, he, hst, _, _, _, _, _, _, ey, eu, ev, _, _⟩ :=
    encode_nat W H F ys us vs y u v out cap (by omega) (by omega) (by omega) (by omega)
      (by omega) hcap (by omega) fy fu fv
  exact ⟨e, he, hst, ey, eu, ev⟩

/-- Witness for C6: a 4 x 2 frame read with strides 6, 3, 3. -/
theorem encode_plane_layout_witness :
    ∃ res,
      aurora_encoder_encode (some { w := 4, h := 2, fps := 1106247680 })
        (rampBuf 16 0) (rampBuf 8 100) (rampBuf 8 200) 6 3 3 (constBuf 40 0) 28 = some res ∧
      res.status = 0 ∧
      (∀ r c, r < 2 → c < 4 → res.out.data (16 + r * 4 + c) = (rampBuf 16 0).data (r * 6 + c)) ∧
      (∀ r c, r < 2 / 2 → c < 4 / 2 →
        res.out.data (16 + 4 * 2 + r * (4 / 2) + c) = (rampBuf 8 100).data (r * 3 + c)) ∧
      (∀ r c, r < 2 / 2 → c < 4 / 2 →
        res.out.data (16 + 4 * 2 + (4 / 2) * (2 / 2) + r * (4 / 2) + c)
          = (rampBuf 8 200).data (r * 3 + c)) :=
  encode_plane_layout 4 2 1106247680 6 3 3
    (rampBuf 16 0) (rampBuf 8 100) (rampBuf 8 200) (constBuf 40 0) 28
    (by decide) (by decide) (by decide) (by decide) (by decide) (by decide) (by decide)
    (by decide) (by decide) (by decide) (by decide) (by decide)

/-- Claim C7. Unpacker output on success. For a source of `n >= 16` bytes whose
header declares a width `W >= 0` and a height `H >= 0` with
`n >= 16 + W*H + 2*(W/2)*(H/2)`, the unpacker returns 0, reports the header's
width and height and the 32-bit pattern at offset 8, and fills the three
planes: `y[r*ys + c] = bs[16 + r*W + c]`,
`u[r*us + c] = bs[16 + W*H + r*(W/2) + c]` and
`v[r*vs + c] = bs[16 + W*H + (W/2)*(H/2) + r*(W/2) + c]`, for destination
strides at least the plane width. -/
theorem decode_output_on_success (d : DecCtx) (b : Buf) (n : Nat) (y u v : Buf)
    (W H ys us vs : Nat)
    (hn : 16 ≤ n) (hsz : n ≤ b.size)
    (hw : (load32 b 0).map toInt32 = some (W : Int))
    (hh : (load32 b 4).map toInt32 = some (H : Int))
    (hneed : 16 + W * H + 2 * ((W / 2) * (H / 2)) ≤ n)
    (hys : W ≤ ys) (hus : W / 2 ≤ us) (hvs : W / 2 ≤ vs)
    (iys : (ys : Int) ≤ INT_MAX) (ius : (us : Int) ≤ INT_MAX) (ivs : (vs : Int) ≤ INT_MAX)
    (fy : PlaneFits y ys W H) (fu : PlaneFits u us (W / 2) (H / 2))
    (fv : PlaneFits v vs (W / 2) (H / 2)) :
    ∃ res,
      aurora_decoder_decode (some d) (some b) n y u v ys us vs = some res ∧
      res.status = 0 ∧ res.ow = some (W : Int) ∧ res.oh = some (H : Int) ∧
      res.ofps = load32 b 8 ∧ res.ofps ≠ none ∧
      (∀ r c, r < H → c < W → res.y.data (r * ys + c) = b.data (16 + r * W + c)) ∧
      (∀ r c, r < H / 2 → c < W / 2 →
        res.u.data (r * us + c) = b.data (16 + W * H + r * (W / 2) + c)) ∧
      (∀ r c, r < H / 2 → c < W / 2 →
        res.v.data (r * vs + c)
          = b.data (16 + W * H + (W / 2) * (H / 2) + r * (W / 2) + c)) := by
  unfold INT_MAX at iys ius ivs
  obtain ⟨wbits, hwb, tW⟩ := Option.map_eq_some'.mp hw
  obtain ⟨hbits, hhb, tH⟩ := Option.map_eq_some'.mp hh
  obtain ⟨F, hf⟩ := load32_ok b 8 (by omega)
  obtain ⟨r, hr, rst, row, roh, rof, _, _, _, dy, du, dv, _, _, _, _⟩ :=
    decode_nat d b n y u v W H ys us vs wbits hbits F hwb tW hhb tH hf hneed hsz
      (by omega) (by omega) (by omega) fy fu fv
  refine ⟨r, hr, rst, row, roh, by rw [rof, hf], by rw [rof]; simp, dy hys, du hus, dv hvs⟩

/-- Witness for C7: a 28-byte source declaring a 4 x 2 frame, unpacked with
strides 5, 4, 2. -/
theorem decode_output_on_success_witness :
    ∃ res,
      aurora_decoder_decode (some { d := 0 }) (some sampleFrame) 28
        (constBuf 20 0) (constBuf 20 0) (constBuf 20 0) 5 4 2 = some res ∧
      res.status = 0 ∧ res.ow = some 4 ∧ res.oh = some 2 ∧
      res.ofps = load32 sampleFrame 8 ∧ res.ofps ≠ none ∧
      (∀ r c, r < 2 → c < 4 → res.y.data (r * 5 + c) = sampleFrame.data (16 + r * 4 + c)) ∧
      (∀ r c, r < 2 / 2 → c < 4 / 2 →
        res.u.data (r * 4 + c) = sampleFrame.data (16 + 4 * 2 + r * (4 / 2) + c)) ∧
      (∀ r c, r < 2 / 2 → c < 4 / 2 →
        res.v.data (r * 2 + c)
          = sampleFrame.data (16 + 4 * 2 + (4 / 2) * (2 / 2) + r * (4 / 2) + c)) :=
  decode_output_on_success { d := 0 } sampleFrame 28
    (constBuf 20 0) (constBuf 20 0) (constBuf 20 0) 4 2 5 4 2
    (by decide) (by decide) (by decide) (by decide) (by decide) (by decide) (by decide)
    (by decide) (by decide) (by decide) (by decide) (by decide) (by decide) (by decide)

/-- Counterexample to C8 as stated: with a valid handle and a valid source of
15 bytes the unpacker returns -1, the status it also returns for a null
handle, and not the -2 it returns for a source shorter than its header
declares. -/
theorem decode_short_header_counterexample :
    (aurora_decoder_decode (some { d := 0 }) (some sampleFrame) 15
        (constBuf 20 0) (constBuf 20 0) (constBuf 20 0) 5 4 2).map DecResult.status
      = some (-1) ∧
    (aurora_decoder_decode none (some sampleFrame) 15
        (constBuf 20 0) (constBuf 20 0) (constBuf 20 0) 5 4 2).map DecResult.status
      = some (-1) ∧
    (aurora_decoder_decode (some { d := 0 }) (some truncatedFrame) 20
        (constBuf 20 0) (constBuf 20 0) (constBuf 20 0) 5 4 2).map DecResult.status
      = some (-2) := by
  decide

/-- Claim C8, amended. For a valid handle and a valid source of `n < 16` bytes
the unpacker returns -1 and stores nothing; that is exactly what it returns for
a null handle, and it differs from the -2 it returns for a source of at least
16 bytes that is shorter than the size its header declares (any `int` header
values `w`, `h`, exact size `16 + w*h + 2*(w/2)*(h/2)` with truncating
division). -/
theorem decode_short_header_status (d : DecCtx) (b : Buf) (n : Nat) (y u v : Buf)
    (ys us vs : Int) (hn : n < 16) :
    aurora_decoder_decode (some d) (some b) n y u v ys us vs
        = some { status := -1, y := y, u := u, v := v, ow := none, oh := none, ofps := none,
                 trace := [] } ∧
      aurora_decoder_decode (some d) (some b) n y u v ys us vs
        = aurora_decoder_decode none (some b) n y u v ys us vs ∧
      (aurora_decoder_decode (some d) (some b) n y u v ys us vs).map DecResult.status
        ≠ some (-2) ∧
      ∀ (b2 : Buf) (n2 : Nat) (w h : Int), 16 ≤ n2 → n2 ≤ b2.size →
        (load32 b2 0).map toInt32 = some w → (load32 b2 4).map toInt32 = some h →
        (n2 : Int) < 16 + w * h + 2 * (w.tdiv 2) * (h.tdiv 2) →
        (aurora_decoder_decode (some d) (some b2) n2 y u v ys us vs).map DecResult.status
            = some (-2) ∧
          (aurora_decoder_decode (some d) (some b2) n2 y u v ys us vs).map DecResult.status
            ≠ (aurora_decoder_decode (some d) (some b) n y u v ys us vs).map
              DecResult.status := by
  rw [decode_short d b n y u v ys us vs hn, decode_null_handle]
  refine ⟨rfl, rfl, by simp [decFail], ?_⟩
  intro b2 n2 w h h16 hsz hw hh htr
  obtain ⟨wbits, hwb, rfl⟩ := Option.map_eq_some'.mp hw
  obtain ⟨hbits, hhb, rfl⟩ := Option.map_eq_some'.mp hh
  obtain ⟨fps, hf⟩ := load32_ok b2 8 (by omega)
  rw [decode_header d b2 n2 y u v ys us vs wbits hbits fps h16 hwb hhb hf]
  have hx := needSize_exact (toInt32 wbits) (toInt32 hbits) (toInt32_isInt32 _)
    (toInt32_isInt32 _) (by omega)
  rw [if_pos (by omega)]
  exact ⟨by simp [decFail], by simp [decFail]⟩

/-- Witness for the amended C8: a source of 15 bytes. -/
theorem decode_short_header_status_witness :
    aurora_decoder_decode (some { d := 0 }) (some sampleFrame) 15
        (constBuf 20 7) (constBuf 20 8) (constBuf 20 9) 5 4 2
        = some { status := -1, y := constBuf 20 7, u := constBuf 20 8, v := constBuf 20 9,
                 ow := none, oh := none, ofps := none, trace := [] } ∧
      aurora_decoder_decode (some { d := 0 }) (some sampleFrame) 15
        (constBuf 20 7) (constBuf 20 8) (constBuf 20 9) 5 4 2
        = aurora_decoder_decode none (some sampleFrame) 15
          (constBuf 20 7) (constBuf 20 8) (constBuf 20 9) 5 4 2 ∧
      (aurora_decoder_decode (some { d := 0 }) (some sampleFrame) 15
        (constBuf 20 7) (constBuf 20 8) (constBuf 20 9) 5 4 2).map DecResult.status
        ≠ some (-2) ∧
      ∀ (b2 : Buf) (n2 : Nat) (w h : Int), 16 ≤ n2 → n2 ≤ b2.size →
        (load32 b2 0).map toInt32 = some w → (load32 b2 4).map toInt32 = some h →
        (n2 : Int) < 16 + w * h + 2 * (w.tdiv 2) * (h.tdiv 2) →
        (aurora_decoder_decode (some { d := 0 }) (some b2) n2
            (constBuf 20 7) (constBuf 20 8) (constBuf 20 9) 5 4 2).map DecResult.status
            = some (-2) ∧
          (aurora_decoder_decode (some { d := 0 }) (some b2) n2
            (constBuf 20 7) (constBuf 20 8) (constBuf 20 9) 5 4 2).map DecResult.status
            ≠ (aurora_decoder_decode (some { d := 0 }) (some sampleFrame) 15
              (constBuf 20 7) (constBuf 20 8) (constBuf 20 9) 5 4 2).map DecResult.status :=
  decode_short_header_status { d := 0 } sampleFrame 15
    (constBuf 20 7) (constBuf 20 8) (constBuf 20 9) 5 4 2 (by decide)

/-- Claim C9. Null handle is rejected without effect. With a null context the
packer returns -1, makes no `memcpy`/`memset` call, leaves the destination as
it was and does not store to `*out_size`; with a null handle the unpacker
returns -1, makes no call, leaves the three planes as they were and stores
nothing to its width, height and frame-rate outputs. Both hold for every value
of the other arguments, so also when the capacity or the source length would
fail the size check. -/
theorem null_handle_rejected :
    (∀ (y u v : Buf) (ys us vs : Int) (out : Buf) (cap : Nat),
      aurora_encoder_encode none y u v ys us vs out cap
        = some { status := -1, out := out, out_size := none, trace := [] }) ∧
    (∀ (bs : Option Buf) (n : Nat) (y u v : Buf) (ys us vs : Int),
      aurora_decoder_decode none bs n y u v ys us vs
        = some { status := -1, y := y, u := u, v := v, ow := none, oh := none,
                 ofps := none, trace := [] }) :=
  ⟨fun y u v ys us vs out cap => encode_null y u v ys us vs out cap,
    fun bs n y u v ys us vs => decode_null_handle bs n y u v ys us vs⟩

/-- Claim C10. Wire bytes do not depend on source stride or padding. For a
`W x H` context (`0 < W`, `0 < H`) and two sets of source planes and strides
that agree on every logical sample, packing into the same destination with the
same capacity gives the same status, the same `*out_size` and the same
destination contents, whatever the strides and the bytes in the stride
padding are. -/
theorem wire_bytes_stride_independent (W H F : Nat) (ys us vs ys2 us2 vs2 : Nat)
    (y u v y2 u2 v2 out : Buf) (cap : Nat)
    (hW0 : 0 < W) (hH0 : 0 < H)
    (hW : (W : Int) ≤ INT_MAX) (hH : (H : Int) ≤ INT_MAX)
    (iys : (ys : Int) ≤ INT_MAX) (ius : (us : Int) ≤ INT_MAX) (ivs : (vs : Int) ≤ INT_MAX)
    (iys2 : (ys2 : Int) ≤ INT_MAX) (ius2 : (us2 : Int) ≤ INT_MAX)
    (ivs2 : (vs2 : Int) ≤ INT_MAX)
    (hout : cap ≤ out.size)
    (fy : PlaneFits y ys W H) (fu : PlaneFits u us (W / 2) (H / 2))
    (fv : PlaneFits v vs (W / 2) (H / 2))
    (fy2 : PlaneFits y2 ys2 W H) (fu2 : PlaneFits u2 us2 (W / 2) (H / 2))
    (fv2 : PlaneFits v2 vs2 (W / 2) (H / 2))
    (ay : ∀ r, r < H → ∀ c, c < W → y.data (r * ys + c) = y2.data (r * ys2 + c))
    (au : ∀ r, r < H / 2 → ∀ c, c < W / 2 → u.data (r * us + c) = u2.data (r * us2 + c))
    (av : ∀ r, r < H / 2 → ∀ c, c < W / 2 → v.data (r * vs + c) = v2.data (r * vs2 + c)) :
    ∃ r1 r2,
      aurora_encoder_encode (some { w := W, h := H, fps := F }) y u v ys us vs out cap
        = some r1 ∧
      aurora_encoder_encode (some { w := W, h := H, fps := F }) y2 u2 v2 ys2 us2 vs2 out cap
        = some r2 ∧
      r1.status = r2.status ∧ r1.out_size = r2.out_size ∧ r1.out = r2.out := by
  unfold INT_MAX at hW hH iys ius ivs iys2 ius2 ivs2
  have hnd := needSize_natCast W H (by omega) (by omega)
  have hmc : H * W = W * H := Nat.mul_comm H W
  have hmc2 : H / 2 * (W / 2) = W / 2 * (H / 2) := Nat.mul_comm _ _
  by_cases hcap : cap < 16 + W * H + 2 * ((W / 2) * (H / 2))
  · refine ⟨_, _, encode_small _ y u v ys us vs out cap (by simp only; omega),
      encode_small _ y2 u2 v2 ys2 us2 vs2 out cap (by simp only; omega), rfl, rfl, rfl⟩
  · obtain ⟨e1, he1, st1, sz1, z1, _, _, _, _, ly1, lu1, lv1, fr1, _, a1, ha1, hd1⟩ :=
      encode_nat W H F ys us vs y u v out cap (by omega) (by omega) (by omega) (by omega)
        (by omega) (by omega) (by omega) fy fu fv
    obtain ⟨e2, he2, st2, sz2, z2, _, _, _, _, ly2, lu2, lv2, fr2, _, a2, ha2, hd2⟩ :=
      encode_nat W H F ys2 us2 vs2 y2 u2 v2 out cap (by omega) (by omega) (by omega)
        (by omega) (by omega) (by omega) (by omega) fy2 fu2 fv2
    refine ⟨e1, e2, he1, he2, by rw [st1, st2], by rw [sz1, sz2], ?_⟩
    have hdata : e1.out.data = e2.out.data := by
      funext i
      by_cases h16 : i < 16
      · rw [hd1 i h16, hd2 i h16]
        rw [ha1] at ha2
        cases ha2
        rfl
      · by_cases hY : i < 16 + W * H
        · obtain ⟨r, c, hr, hc, hj⟩ := row_decomp W H (i - 16) (by omega)
          have e : i = 16 + r * W + c := by omega
          rw [e, ly1 r c hr hc, ly2 r c hr hc, ay r hr c hc]
        · by_cases hU : i < 16 + W * H + W / 2 * (H / 2)
          · obtain ⟨r, c, hr, hc, hj⟩ := row_decomp (W / 2) (H / 2) (i - (16 + W * H))
              (by omega)
            have e : i = 16 + W * H + r * (W / 2) + c := by omega
            rw [e, lu1 r c hr hc, lu2 r c hr hc, au r hr c hc]
          · by_cases hV : i < 16 + W * H + 2 * (W / 2 * (H / 2))
            · obtain ⟨r, c, hr, hc, hj⟩ := row_decomp (W / 2) (H / 2)
                (i - (16 + W * H + W / 2 * (H / 2))) (by omega)
              have e : i = 16 + W * H + W / 2 * (H / 2) + r * (W / 2) + c := by omega
              rw [e, lv1 r c hr hc, lv2 r c hr hc, av r hr c hc]
            · rw [fr1 i (by omega), fr2 i (by omega)]
    cases h1 : e1.out with
    | mk s1 d1 =>
      cases h2 : e2.out with
      | mk s2 d2 =>
        rw [h1] at z1 hdata
        rw [h2] at z2 hdata
        simp only at z1 z2 hdata
        rw [z1, z2, hdata]

/-- Witness for C10: the same 4 x 2 samples read once with strides 6, 3, 3
and once with strides 5, 5, 2 from a luma plane with other padding. -/
theorem wire_bytes_stride_independent_witness :
    ∃ r1 r2,
      aurora_encoder_encode (some { w := 4, h := 2, fps := 1106247680 })
        (rampBuf 16 0) (rampBuf 8 100) (rampBuf 8 200) 6 3 3 (constBuf 40 0) 28 = some r1 ∧
      aurora_encoder_encode (some { w := 4, h := 2, fps := 1106247680 })
        repackedLuma (rampBuf 8 100) (rampBuf 8 200) 5 5 2 (constBuf 40 0) 28 = some r2 ∧
      r1.status = r2.status ∧ r1.out_size = r2.out_size ∧ r1.out = r2.out :=
  wire_bytes_stride_independent 4 2 1106247680 6 3 3 5 5 2
    (rampBuf 16 0) (rampBuf 8 100) (rampBuf 8 200) repackedLuma (rampBuf 8 100) (rampBuf 8 200)
    (constBuf 40 0) 28
    (by decide) (by decide) (by decide) (by decide) (by decide) (by decide) (by decide)
    (by decide) (by decide) (by decide) (by decide) (by decide) (by decide) (by decide)
    (by decide) (by decide) (by decide) (by decide) (by decide) (by decide)

/-! ## Dependence of the unpacker on its source -/

theorem memcpy_src_congr (dst src1 src2 : Buf) (d s n : Nat) (hs : src1.size = src2.size)
    (hd : ∀ k, k < n → src1.data (s + k) = src2.data (s + k)) :
    memcpy dst d src1 s n = memcpy dst d src2 s n := by
  unfold memcpy
  rw [hs]
  split
  · congr 2
    funext i
    split
    · rename_i hi
      exact hd (i - d) (by omega)
    · rfl
  · rfl

theorem decRow_src_congr (b1 b2 : Buf) (stride len : Int) (r : Nat) (st : DecState)
    (hs : b1.size = b2.size) (hd : ∀ i, st.p ≤ i → b1.data i = b2.data i) :
    decRow b1 stride len r st = decRow b2 stride len r st := by
  unfold decRow
  rw [memcpy_src_congr st.dst b1 b2 _ st.p _ hs (fun k _ => hd (st.p + k) (by omega))]

/-- A row loop of non-negative width that starts reading at `p` only looks at
source bytes from `p` on. -/
theorem decLoop_src_congr (b1 b2 : Buf) (stride : Int) (w : Nat) (hs : b1.size = b2.size) :
    ∀ (n : Nat) (st : DecState), st.p + n * w < SIZE_MODULUS →
      (∀ i, st.p ≤ i → b1.data i = b2.data i) →
      forLoop n (decRow b1 stride (w : Int)) st = forLoop n (decRow b2 stride (w : Int)) st := by
  intro n
  induction n with
  | zero => intro st _ _; rfl
  | succ n ih =>
    intro st hp hd
    have hmul : (n + 1) * w = n * w + w := by rw [Nat.add_mul, Nat.one_mul]
    rw [hmul] at hp
    unfold forLoop
    rw [ih st (by omega) hd]
    cases h : forLoop n (decRow b2 stride (w : Int)) st with
    | none => rfl
    | some s1 =>
      obtain ⟨hp1, _⟩ := decLoop_some b2 stride w n st s1 (by omega) h
      simp only [Option.some_bind]
      exact decRow_src_congr b1 b2 stride w n s1 hs (fun i hi => hd i (by omega))

/-- An unpacker row of negative length is a `memcpy` of more than
`PTRDIFF_MAX` bytes: it cannot stay inside the source. -/
theorem decRow_neg_len (bs : Buf) (stride w : Int) (r : Nat) (st : DecState)
    (hw : w < 0) (hi : IsInt32 w) (hsz : bs.size ≤ PTRDIFF_MAX) :
    decRow bs stride w r st = none := by
  have hc := toSize_cast w
  unfold IsInt32 INT_MIN INT_MAX at hi
  unfold PTRDIFF_MAX at hsz
  unfold SIZE_MODULUS at hc
  unfold decRow memcpy
  rw [if_neg (by omega)]

theorem decLoop_neg_none (bs : Buf) (stride w : Int) (n : Nat) (st : DecState)
    (hw : w < 0) (hi : IsInt32 w) (hsz : bs.size ≤ PTRDIFF_MAX) (hn : 0 < n) :
    forLoop n (decRow bs stride w) st = none := by
  cases h : forLoop n (decRow bs stride w) st with
  | none => rfl
  | some s =>
    obtain ⟨s1, h1⟩ := forLoop_first n hn h
    rw [decRow_neg_len bs stride w 0 st hw hi hsz] at h1
    cases h1

theorem forLoop_zero {σ : Type} (body : Nat → σ → Option σ) (s : σ) :
    forLoop 0 body s = some s := rfl

/-- The rows part of the unpacker (everything after the size check) for header
values `w`, `h`, as a function of the source. -/
theorem decode_rows_congr (b1 b2 : Buf) (w h : Int) (y u v : Buf) (ys us vs : Int)
    (hw : IsInt32 w) (hh : IsInt32 h)
    (hs : b1.size = b2.size) (hobj : b1.size ≤ PTRDIFF_MAX)
    (hd : ∀ i, 16 ≤ i → b1.data i = b2.data i) (k : DecState → DecState → DecState →
      Option DecResult) :
    ((forLoop h.toNat (decRow b1 ys w) { dst := y, p := 16, trace := [] }).bind fun s1 =>
      (forLoop (h.tdiv 2).toNat (decRow b1 us (w.tdiv 2))
        { dst := u, p := s1.p, trace := s1.trace }).bind fun s2 =>
      (forLoop (h.tdiv 2).toNat (decRow b1 vs (w.tdiv 2))
        { dst := v, p := s2.p, trace := s2.trace }).bind fun s3 => k s1 s2 s3)
    = ((forLoop h.toNat (decRow b2 ys w) { dst := y, p := 16, trace := [] }).bind fun s1 =>
      (forLoop (h.tdiv 2).toNat (decRow b2 us (w.tdiv 2))
        { dst := u, p := s1.p, trace := s1.trace }).bind fun s2 =>
      (forLoop (h.tdiv 2).toNat (decRow b2 vs (w.tdiv 2))
        { dst := v, p := s2.p, trace := s2.trace }).bind fun s3 => k s1 s2 s3) := by
  rcases Int.lt_or_le 0 h with hpos | hneg
  · rcases Int.lt_or_le w 0 with wneg | wpos
    · rw [decLoop_neg_none b1 ys w h.toNat _ wneg hw hobj (by omega),
        decLoop_neg_none b2 ys w h.toNat _ wneg hw (by rw [← hs]; exact hobj) (by omega)]
      rfl
    · obtain ⟨W, rfl⟩ := Int.eq_ofNat_of_zero_le wpos
      obtain ⟨H, rfl⟩ := Int.eq_ofNat_of_zero_le (Int.le_of_lt hpos)
      unfold IsInt32 INT_MIN INT_MAX at hw hh
      simp only [tdiv_two_natCast, Int.toNat_ofNat]
      have hlt := need_lt W H (by omega) (by omega)
      have hmc : H * W = W * H := Nat.mul_comm H W
      have hmc2 : H / 2 * (W / 2) = W / 2 * (H / 2) := Nat.mul_comm _ _
      have hM : SIZE_MODULUS = 18446744073709551616 := rfl
      rw [decLoop_src_congr b1 b2 ys W hs H _ (by simp only; omega)
        (fun i hi => hd i (by simpa using hi))]
      cases h1 : forLoop H (decRow b2 ys (W : Int)) { dst := y, p := 16, trace := [] } with
      | none => rfl
      | some s1 =>
        obtain ⟨p1, _⟩ := decLoop_some b2 ys W H _ s1 (by simp only; omega) h1
        simp only at p1
        simp only [Option.some_bind]
        rw [decLoop_src_congr b1 b2 us (W / 2) hs (H / 2) _ (by simp only; omega)
          (fun i hi => hd i (by simp only at hi; omega))]
        cases h2 : forLoop (H / 2) (decRow b2 us ((W / 2 : Nat) : Int))
            { dst := u, p := s1.p, trace := s1.trace } with
        | none => rfl
        | some s2 =>
          obtain ⟨p2, _⟩ := decLoop_some b2 us (W / 2) (H / 2) _ s2 (by simp only; omega) h2
          simp only at p2
          simp only [Option.some_bind]
          rw [decLoop_src_congr b1 b2 vs (W / 2) hs (H / 2) _ (by simp only; omega)
            (fun i hi => hd i (by simp only at hi; omega))]
  · have ht := tdiv_two_nonpos h hneg
    have e1 : h.toNat = 0 := by omega
    have e2 : (h.tdiv 2).toNat = 0 := by omega
    rw [e1, e2]
    rfl

/-- Claim C11. Reserved bytes are ignored on read. For a valid handle and two
source objects of the same size (at most `PTRDIFF_MAX` bytes) that agree on
every byte outside offsets 12..15, the unpacker called with the same length,
planes and strides has the same outcome: the same status, the same width,
height and frame-rate outputs, the same final planes and the same calls. -/
theorem decode_ignores_reserved (d : DecCtx) (b1 b2 : Buf) (n : Nat) (y u v : Buf)
    (ys us vs : Int)
    (hs : b1.size = b2.size) (hobj : b1.size ≤ PTRDIFF_MAX)
    (hd : ∀ i, ¬ (12 ≤ i ∧ i < 16) → b1.data i = b2.data i) :
    aurora_decoder_decode (some d) (some b1) n y u v ys us vs
      = aurora_decoder_decode (some d) (some b2) n y u v ys us vs := by
  by_cases hn : n < 16
  · rw [decode_short d b1 n y u v ys us vs hn, decode_short d b2 n y u v ys us vs hn]
  · have l0 : load32 b1 0 = load32 b2 0 := load32_congr hs (fun i hi => hd i (by omega))
    have l4 : load32 b1 4 = load32 b2 4 := load32_congr hs (fun i hi => hd i (by omega))
    have l8 : load32 b1 8 = load32 b2 8 := load32_congr hs (fun i hi => hd i (by omega))
    cases h0 : load32 b2 0 with
    | none =>
      unfold aurora_decoder_decode
      simp only [if_neg hn, l0, h0, Option.none_bind]
    | some wbits =>
      cases h4 : load32 b2 4 with
      | none =>
        unfold aurora_decoder_decode
        simp only [if_neg hn, l0, l4, h0, h4, Option.none_bind, Option.some_bind]
      | some hbits =>
        cases h8 : load32 b2 8 with
        | none =>
          unfold aurora_decoder_decode
          simp only [if_neg hn, l0, l4, l8, h0, h4, h8, Option.none_bind, Option.some_bind]
        | some fps =>
          rw [decode_header d b1 n y u v ys us vs wbits hbits fps (by omega)
              (by rw [l0]; exact h0) (by rw [l4]; exact h4) (by rw [l8]; exact h8),
            decode_header d b2 n y u v ys us vs wbits hbits fps (by omega) h0 h4 h8]
          split
          · rfl
          · exact decode_rows_congr b1 b2 (toInt32 wbits) (toInt32 hbits) y u v ys us vs
              (toInt32_isInt32 _) (toInt32_isInt32 _) hs hobj (fun i hi => hd i (by omega)) _

/-- Witness for C11: the frame `sampleFrame` and the same frame with zeroed
reserved bytes unpack alike, with status 0. -/
theorem decode_ignores_reserved_witness :
    aurora_decoder_decode (some { d := 0 }) (some sampleFrame) 28
        (constBuf 20 0) (constBuf 20 0) (constBuf 20 0) 5 4 2
      = aurora_decoder_decode (some { d := 0 }) (some sampleFrameZeroReserved) 28
        (constBuf 20 0) (constBuf 20 0) (constBuf 20 0) 5 4 2 ∧
    (aurora_decoder_decode (some { d := 0 }) (some sampleFrame) 28
        (constBuf 20 0) (constBuf 20 0) (constBuf 20 0) 5 4 2).map DecResult.status
      = some 0 ∧
    sampleFrame.data 12 ≠ sampleFrameZeroReserved.data 12 :=
  ⟨decode_ignores_reserved { d := 0 } sampleFrame sampleFrameZeroReserved 28
    (constBuf 20 0) (constBuf 20 0) (constBuf 20 0) 5 4 2 (by decide) (by decide)
    (by intro i hi; simp only [sampleFrameZeroReserved, if_neg hi]), by decide, by decide⟩

/-- Counterexample to C12 as stated: with the handle 7 live, the first
destroy releases it; the second destroy of the same handle passes the released
pointer to `free` again, which is undefined behaviour and not a no-op. The same
holds for both functions. -/
theorem double_destroy_counterexample :
    aurora_encoder_free {7} 7 = some ∅ ∧ aurora_encoder_free ∅ 7 = none ∧
    aurora_encoder_free ∅ 7 ≠ some ∅ ∧
    aurora_decoder_free {7} 7 = some ∅ ∧ aurora_decoder_free ∅ 7 = none ∧
    aurora_decoder_free ∅ 7 ≠ some ∅ := by
  decide

/-- Claim C12, amended. Over the set of live handles: destroying a null handle
is a no-op; destroying a live handle releases exactly that handle; and a second
destroy of the same handle is not guarded, it releases an already released
allocation (undefined behaviour). Both functions behave alike. -/
theorem destroy_null_and_live (heap : Heap) (h : Nat) (hnz : h ≠ NULL) (hl : h ∈ heap) :
    aurora_encoder_free heap NULL = some heap ∧ aurora_decoder_free heap NULL = some heap ∧
    aurora_encoder_free heap h = some (heap.erase h) ∧
    aurora_decoder_free heap h = some (heap.erase h) ∧
    aurora_encoder_free (heap.erase h) h = none ∧
    aurora_decoder_free (heap.erase h) h = none := by
  have hne : h ∉ heap.erase h := Finset.not_mem_erase h heap
  unfold aurora_encoder_free aurora_decoder_free free
  simp [hnz, hl, hne]

/-- Witness for the amended C12: the handles 3 and 7 are live, 7 is destroyed. -/
theorem destroy_null_and_live_witness :
    aurora_encoder_free {3, 7} NULL = some {3, 7} ∧
    aurora_decoder_free {3, 7} NULL = some {3, 7} ∧
    aurora_encoder_free {3, 7} 7 = some (({3, 7} : Heap).erase 7) ∧
    aurora_decoder_free {3, 7} 7 = some (({3, 7} : Heap).erase 7) ∧
    aurora_encoder_free (({3, 7} : Heap).erase 7) 7 = none ∧
    aurora_decoder_free (({3, 7} : Heap).erase 7) 7 = none :=
  destroy_null_and_live {3, 7} 7 (by decide) (by decide)

/-! ## Inversion of a successful unpack -/

/-- A call of the unpacker that returns 0 read its header, passed the size
check and ran its three row loops. -/
theorem decode_some_inv {d : DecCtx} {b : Buf} {n : Nat} {y u v : Buf} {ys us vs : Int}
    {res : DecResult}
    (hrun : aurora_decoder_decode (some d) (some b) n y u v ys us vs = some res)
    (hok : res.status = 0) :
    ∃ wbits hbits fps s1 s2 s3, 16 ≤ n ∧
      load32 b 0 = some wbits ∧ load32 b 4 = some hbits ∧ load32 b 8 = some fps ∧
      ¬ n < needSize (toInt32 wbits) (toInt32 hbits) ∧
      forLoop (toInt32 hbits).toNat (decRow b ys (toInt32 wbits))
        { dst := y, p := 16, trace := [] } = some s1 ∧
      forLoop ((toInt32 hbits).tdiv 2).toNat (decRow b us ((toInt32 wbits).tdiv 2))
        { dst := u, p := s1.p, trace := s1.trace } = some s2 ∧
      forLoop ((toInt32 hbits).tdiv 2).toNat (decRow b vs ((toInt32 wbits).tdiv 2))
        { dst := v, p := s2.p, trace := s2.trace } = some s3 ∧
      res = { status := 0, y := s1.dst, u := s2.dst, v := s3.dst,
              ow := some (toInt32 wbits), oh := some (toInt32 hbits), ofps := some fps,
              trace := s3.trace } := by
  by_cases hn : n < 16
  · rw [decode_short d b n y u v ys us vs hn] at hrun
    cases hrun
    simp [decFail] at hok
  · have hrun' := hrun
    unfold aurora_decoder_decode at hrun'
    simp only [if_neg hn] at hrun'
    obtain ⟨wbits, h0, hrun'⟩ := Option.bind_eq_some.mp hrun'
    obtain ⟨hbits, h4, hrun'⟩ := Option.bind_eq_some.mp hrun'
    obtain ⟨fps, h8, hrun'⟩ := Option.bind_eq_some.mp hrun'
    by_cases hc : n < needSize (toInt32 wbits) (toInt32 hbits)
    · simp only [if_pos hc, Option.some.injEq] at hrun'
      subst hrun'
      simp [decFail] at hok
    · simp only [if_neg hc] at hrun'
      obtain ⟨s1, h1, hrun'⟩ := Option.bind_eq_some.mp hrun'
      obtain ⟨s2, h2, hrun'⟩ := Option.bind_eq_some.mp hrun'
      obtain ⟨s3, h3, hrun'⟩ := Option.bind_eq_some.mp hrun'
      cases hrun'
      exact ⟨wbits, hbits, fps, s1, s2, s3, by omega, h0, h4, h8, hc, h1, h2, h3, rfl⟩

/-! ## Claims, continued -/

theorem odd_chroma_smaller (W H : Nat) (hW0 : 0 < W) (hH0 : 0 < H)
    (hodd : W % 2 = 1 ∨ H % 2 = 1) : 4 * ((W / 2) * (H / 2)) < W * H := by
  have e : 4 * ((W / 2) * (H / 2)) = (2 * (W / 2)) * (2 * (H / 2)) := by ring
  rw [e]
  rcases hodd with h | h
  · have h1 : (2 * (W / 2)) * (2 * (H / 2)) ≤ (2 * (W / 2)) * H :=
      Nat.mul_le_mul_left _ (by omega)
    have h2 : (2 * (W / 2) + 1) * H ≤ W * H := Nat.mul_le_mul_right _ (by omega)
    rw [Nat.add_mul, Nat.one_mul] at h2
    omega
  · have h1 : (2 * (W / 2)) * (2 * (H / 2)) ≤ W * (2 * (H / 2)) :=
      Nat.mul_le_mul_right _ (by omega)
    have h2 : W * (2 * (H / 2) + 1) ≤ W * H := Nat.mul_le_mul_left _ (by omega)
    rw [Nat.mul_add, Nat.mul_one] at h2
    omega

/-- Claim C13. Odd dimensions are truncated, not rejected. For `int`
dimensions `0 < W`, `0 < H` of which at least one is odd and a capacity of at
least `16 + W*H + 2*(W/2)*(H/2)` (integer division), the packer returns 0; the
chroma-U plane sits at `16 + W*H`, the chroma-V plane `(W/2)*(H/2)` bytes
later and the output ends `(W/2)*(H/2)` bytes after that, so each chroma plane
takes exactly `(W/2)*(H/2)` bytes, fewer than a quarter of the luma plane;
unpacking that output returns 0 and `(W, H, F)` and reproduces the whole
`W x H` luma plane and the `(W/2) x (H/2)` region of both chroma planes. -/
theorem odd_dimensions_truncated (W H F ys us vs ys2 us2 vs2 : Nat)
    (y u v out y2 u2 v2 : Buf) (cap : Nat) (d : DecCtx)
    (hW0 : 0 < W) (hH0 : 0 < H) (hodd : W % 2 = 1 ∨ H % 2 = 1)
    (hW : (W : Int) ≤ INT_MAX) (hH : (H : Int) ≤ INT_MAX) (hF : F < 4294967296)
    (hys2 : W ≤ ys2) (hus2 : W / 2 ≤ us2) (hvs2 : W / 2 ≤ vs2)
    (iys : (ys : Int) ≤ INT_MAX) (ius : (us : Int) ≤ INT_MAX) (ivs : (vs : Int) ≤ INT_MAX)
    (iys2 : (ys2 : Int) ≤ INT_MAX) (ius2 : (us2 : Int) ≤ INT_MAX)
    (ivs2 : (vs2 : Int) ≤ INT_MAX)
    (hcap : 16 + W * H + 2 * ((W / 2) * (H / 2)) ≤ cap) (hout : cap ≤ out.size)
    (fy : PlaneFits y ys W H) (fu : PlaneFits u us (W / 2) (H / 2))
    (fv : PlaneFits v vs (W / 2) (H / 2))
    (fy2 : PlaneFits y2 ys2 W H) (fu2 : PlaneFits u2 us2 (W / 2) (H / 2))
    (fv2 : PlaneFits v2 vs2 (W / 2) (H / 2)) :
    4 * ((W / 2) * (H / 2)) < W * H ∧
    ∃ e r,
      aurora_encoder_encode (aurora_encoder_create true W H F) y u v ys us vs out cap = some e ∧
      e.status = 0 ∧
      e.out_size = some (16 + W * H + (W / 2) * (H / 2) + (W / 2) * (H / 2)) ∧
      (∀ row col, row < H / 2 → col < W / 2 →
        e.out.data (16 + W * H + row * (W / 2) + col) = u.data (row * us + col)) ∧
      (∀ row col, row < H / 2 → col < W / 2 →
        e.out.data (16 + W * H + (W / 2) * (H / 2) + row * (W / 2) + col)
          = v.data (row * vs + col)) ∧
      aurora_decoder_decode (some d) (some e.out)
        (16 + W * H + (W / 2) * (H / 2) + (W / 2) * (H / 2)) y2 u2 v2 ys2 us2 vs2 = some r ∧
      r.status = 0 ∧ r.ow = some (W : Int) ∧ r.oh = some (H : Int) ∧ r.ofps = some F ∧
      (∀ row col, row < H → col < W →
        r.y.data (row * ys2 + col) = y.data (row * ys + col)) ∧
      (∀ row col, row < H / 2 → col < W / 2 →
        r.u.data (row * us2 + col) = u.data (row * us + col)) ∧
      (∀ row col, row < H / 2 → col < W / 2 →
        r.v.data (row * vs2 + col) = v.data (row * vs + col)) := by
  refine ⟨odd_chroma_smaller W H hW0 hH0 hodd, ?_⟩
  unfold INT_MAX at hW hH iys ius ivs iys2 ius2 ivs2
  obtain ⟨e, he, hst, hsz, hosz, lw, lh, lf, _, ey, eu, ev, _, _⟩ :=
    encode_nat W H F ys us vs y u v out cap (by omega) (by omega) (by omega) (by omega)
      (by omega) hcap (by omega) fy fu fv
  rw [Nat.mod_eq_of_lt hF] at lf
  have tW : toInt32 W = (W : Int) := by
    unfold toInt32 INT_MODULUS
    rw [Nat.mod_eq_of_lt (by omega), if_pos (by omega)]
  have tH : toInt32 H = (H : Int) := by
    unfold toInt32 INT_MODULUS
    rw [Nat.mod_eq_of_lt (by omega), if_pos (by omega)]
  have hsum : 16 + W * H + (W / 2) * (H / 2) + (W / 2) * (H / 2)
      = 16 + W * H + 2 * ((W / 2) * (H / 2)) := by omega
  rw [hsum]
  obtain ⟨r, hr, rst, row, roh, rof, _, _, _, dy, du, dv, _, _, _, _⟩ :=
    decode_nat d e.out (16 + W * H + 2 * ((W / 2) * (H / 2))) y2 u2 v2 W H ys2 us2 vs2 W H F
      lw tW lh tH lf (le_refl _) (by omega) (by omega) (by omega) (by omega) fy2 fu2 fv2
  refine ⟨e, r, he, hst, hsz, eu, ev, hr, rst, row, roh, rof, ?_, ?_, ?_⟩
  · intro a b ha hb
    rw [dy hys2 a b ha hb, ey a b ha hb]
  · intro a b ha hb
    rw [du hus2 a b ha hb, eu a b ha hb]
  · intro a b ha hb
    rw [dv hvs2 a b ha hb, ev a b ha hb]

/-- Witness for C13: a 5 x 3 frame; each chroma plane is 2 x 1. -/
theorem odd_dimensions_truncated_witness :
    4 * ((5 / 2) * (3 / 2)) < 5 * 3 ∧
    ∃ e r,
      aurora_encoder_encode (aurora_encoder_create true 5 3 1106247680)
        (rampBuf 32 0) (rampBuf 8 100) (rampBuf 8 200) 7 3 3 (constBuf 40 0) 35 = some e ∧
      e.status = 0 ∧
      e.out_size = some (16 + 5 * 3 + (5 / 2) * (3 / 2) + (5 / 2) * (3 / 2)) ∧
      (∀ row col, row < 3 / 2 → col < 5 / 2 →
        e.out.data (16 + 5 * 3 + row * (5 / 2) + col) = (rampBuf 8 100).data (row * 3 + col)) ∧
      (∀ row col, row < 3 / 2 → col < 5 / 2 →
        e.out.data (16 + 5 * 3 + (5 / 2) * (3 / 2) + row * (5 / 2) + col)
          = (rampBuf 8 200).data (row * 3 + col)) ∧
      aurora_decoder_decode (some { d := 0 }) (some e.out)
        (16 + 5 * 3 + (5 / 2) * (3 / 2) + (5 / 2) * (3 / 2))
        (constBuf 20 0) (constBuf 20 0) (constBuf 20 0) 6 4 2 = some r ∧
      r.status = 0 ∧ r.ow = some 5 ∧ r.oh = some 3 ∧ r.ofps = some 1106247680 ∧
      (∀ row col, row < 3 → col < 5 →
        r.y.data (row * 6 + col) = (rampBuf 32 0).data (row * 7 + col)) ∧
      (∀ row col, row < 3 / 2 → col < 5 / 2 →
        r.u.data (row * 4 + col) = (rampBuf 8 100).data (row * 3 + col)) ∧
      (∀ row col, row < 3 / 2 → col < 5 / 2 →
        r.v.data (row * 2 + col) = (rampBuf 8 200).data (row * 3 + col)) :=
  odd_dimensions_truncated 5 3 1106247680 7 3 3 6 4 2
    (rampBuf 32 0) (rampBuf 8 100) (rampBuf 8 200) (constBuf 40 0)
    (constBuf 20 0) (constBuf 20 0) (constBuf 20 0) 35 { d := 0 }
    (by decide) (by decide) (by decide) (by decide) (by decide) (by decide)
    (by decide) (by decide) (by decide) (by decide) (by decide) (by decide)
    (by decide) (by decide) (by decide) (by decide) (by decide) (by decide)
    (by decide) (by decide) (by decide) (by decide) (by decide)

/-- Claim C14, evaluated at a failing input. A context created with width 1
and height -10 makes the size computation wrap to `16 - 10 = 6`; with
capacity 8 the check passes, the packer returns 0, stores the 16 header bytes
(offsets 8..15 lie at or beyond the capacity) and reports 16 bytes written. -/
theorem encode_writes_past_capacity :
    needSize 1 (-10) = 6 ∧
    (aurora_encoder_encode (aurora_encoder_create true 1 (-10) 1106247680)
        (rampBuf 16 0) (rampBuf 8 100) (rampBuf 8 200) 6 3 3 (constBuf 40 0) 8).map
        (fun r => (r.status, r.out_size, r.trace))
      = some (0, some 16,
          [Call.memcpy 0 0 4, Call.memcpy 4 0 4, Call.memcpy 8 0 4, Call.memset 12 4]) ∧
    (Call.memset 12 4).writes 15 ∧ ¬ (15 < 8) ∧ ¬ (16 ≤ 8) := by
  decide

/-- Claim C15, evaluated at a failing input. A 20-byte source whose header
declares width -1 and height 1 passes the size check (the required size wraps
to 15), and the first luma row copy is then a `memcpy` of `(size_t)-1` bytes
read from offset 16: its length is not a plane width and its source range ends
far beyond the 20 bytes, so the call has no defined result. -/
theorem decode_row_copy_leaves_source :
    (load32 badRowFrame 0).map toInt32 = some (-1) ∧
    (load32 badRowFrame 4).map toInt32 = some 1 ∧
    needSize (-1) 1 = 15 ∧ ¬ (20 < needSize (-1) 1) ∧
    toSize (-1) = 18446744073709551615 ∧ ¬ (16 + toSize (-1) ≤ 20) ∧
    (decRow badRowFrame 5 (-1) 0 { dst := constBuf 20 7, p := 16, trace := [] }).isNone
      = true ∧
    (aurora_decoder_decode (some { d := 0 }) (some badRowFrame) 20
        (constBuf 20 7) (constBuf 20 8) (constBuf 20 9) 5 4 2).isNone = true := by
  decide

theorem outside_rows (S W H r c : Nat) (hWS : W ≤ S) (hc : c < S) (h : W ≤ c ∨ H ≤ r) :
    ∀ q, q < H → ¬ (q * S ≤ r * S + c ∧ r * S + c < q * S + W) := by
  intro q hq hin
  rcases Nat.lt_trichotomy q r with hlt | heq | hgt
  · have := row_le (q + 1) r S hlt
    rw [Nat.add_mul, Nat.one_mul] at this
    omega
  · subst heq
    omega
  · have := row_le (r + 1) q S hgt
    rw [Nat.add_mul, Nat.one_mul] at this
    omega

/-- Claim C16. Unpacker frame condition. After every unpack that returns 0 on
a header declaring a width `W >= 0` and a height `H >= 0`, with destination
strides at least the plane width: every plane byte at `r*stride + c` with
`c < stride` that lies in the stride padding (`c` at least the plane width) or
below the last row (`r` at least the plane height) has the value it had before
the call; more generally so has every byte outside the row spans
`[r*stride, r*stride + width)`, `r` below the plane height. -/
theorem decode_frame_condition (d : DecCtx) (b : Buf) (n : Nat) (y u v : Buf)
    (W H ys us vs : Nat) (res : DecResult)
    (hw : (load32 b 0).map toInt32 = some (W : Int))
    (hh : (load32 b 4).map toInt32 = some (H : Int))
    (hys : W ≤ ys) (hus : W / 2 ≤ us) (hvs : W / 2 ≤ vs)
    (iys : (ys : Int) ≤ INT_MAX) (ius : (us : Int) ≤ INT_MAX) (ivs : (vs : Int) ≤ INT_MAX)
    (hrun : aurora_decoder_decode (some d) (some b) n y u v ys us vs = some res)
    (hok : res.status = 0) :
    (∀ r c, c < ys → (W ≤ c ∨ H ≤ r) → res.y.data (r * ys + c) = y.data (r * ys + c)) ∧
    (∀ r c, c < us → (W / 2 ≤ c ∨ H / 2 ≤ r) →
      res.u.data (r * us + c) = u.data (r * us + c)) ∧
    (∀ r c, c < vs → (W / 2 ≤ c ∨ H / 2 ≤ r) →
      res.v.data (r * vs + c) = v.data (r * vs + c)) ∧
    (∀ i, (∀ r, r < H → ¬ (r * ys ≤ i ∧ i < r * ys + W)) → res.y.data i = y.data i) ∧
    (∀ i, (∀ r, r < H / 2 → ¬ (r * us ≤ i ∧ i < r * us + W / 2)) →
      res.u.data i = u.data i) ∧
    (∀ i, (∀ r, r < H / 2 → ¬ (r * vs ≤ i ∧ i < r * vs + W / 2)) →
      res.v.data i = v.data i) := by
  unfold INT_MAX at iys ius ivs
  obtain ⟨wbits, hbits, fps, s1, s2, s3, _, h0, h4, _, _, h1, h2, h3, rfl⟩ :=
    decode_some_inv hrun hok
  rw [h0] at hw
  rw [h4] at hh
  simp only [Option.map_some', Option.some.injEq] at hw hh
  rw [hw, hh] at h1 h2 h3
  have hWlt := toInt32_eq_natCast hw
  have hHlt := toInt32_eq_natCast hh
  simp only [tdiv_two_natCast, Int.toNat_ofNat] at h1 h2 h3
  have hlt := need_lt W H hWlt hHlt
  have hmc : H * W = W * H := Nat.mul_comm H W
  have hmc2 : H / 2 * (W / 2) = W / 2 * (H / 2) := Nat.mul_comm _ _
  have hM : SIZE_MODULUS = 18446744073709551616 := rfl
  obtain ⟨p1, _, _, _, f1, _⟩ := decLoop_some b ys W H _ s1 (by simp only; omega) h1
  simp only at p1 f1
  obtain ⟨p2, _, _, _, f2, _⟩ := decLoop_some b us (W / 2) (H / 2) _ s2
    (by simp only; omega) h2
  simp only at p2 f2
  obtain ⟨_, _, _, _, f3, _⟩ := decLoop_some b vs (W / 2) (H / 2) _ s3
    (by simp only; omega) h3
  simp only at f3
  have gy : ∀ i, (∀ r, r < H → ¬ (r * ys ≤ i ∧ i < r * ys + W)) → s1.dst.data i = y.data i :=
    fun i hi => f1 i (fun r hr => by
      rw [rowOff_natCast r ys (by omega) (by omega)]; exact hi r hr)
  have gu : ∀ i, (∀ r, r < H / 2 → ¬ (r * us ≤ i ∧ i < r * us + W / 2)) →
      s2.dst.data i = u.data i :=
    fun i hi => f2 i (fun r hr => by
      rw [rowOff_natCast r us (by omega) (by omega)]; exact hi r hr)
  have gv : ∀ i, (∀ r, r < H / 2 → ¬ (r * vs ≤ i ∧ i < r * vs + W / 2)) →
      s3.dst.data i = v.data i :=
    fun i hi => f3 i (fun r hr => by
      rw [rowOff_natCast r vs (by omega) (by omega)]; exact hi r hr)
  exact ⟨fun r c hc h => gy _ (outside_rows ys W H r c hys hc h),
    fun r c hc h => gu _ (outside_rows us (W / 2) (H / 2) r c hus hc h),
    fun r c hc h => gv _ (outside_rows vs (W / 2) (H / 2) r c hvs hc h), gy, gu, gv⟩

/-- Witness for C16: `sampleFrame` (4 x 2) unpacked with strides 5, 4, 2 into
planes that held the bytes 7, 8 and 9. -/
theorem decode_frame_condition_witness :
    ∃ res,
      aurora_decoder_decode (some { d := 0 }) (some sampleFrame) 28
        (constBuf 20 7) (constBuf 20 8) (constBuf 20 9) 5 4 2 = some res ∧
      (∀ r c, c < 5 → (4 ≤ c ∨ 2 ≤ r) → res.y.data (r * 5 + c) = (constBuf 20 7).data (r * 5 + c)) ∧
      (∀ r c, c < 4 → (4 / 2 ≤ c ∨ 2 / 2 ≤ r) →
        res.u.data (r * 4 + c) = (constBuf 20 8).data (r * 4 + c)) ∧
      (∀ r c, c < 2 → (4 / 2 ≤ c ∨ 2 / 2 ≤ r) →
        res.v.data (r * 2 + c) = (constBuf 20 9).data (r * 2 + c)) ∧
      (∀ i, (∀ r, r < 2 → ¬ (r * 5 ≤ i ∧ i < r * 5 + 4)) →
        res.y.data i = (constBuf 20 7).data i) ∧
      (∀ i, (∀ r, r < 2 / 2 → ¬ (r * 4 ≤ i ∧ i < r * 4 + 4 / 2)) →
        res.u.data i = (constBuf 20 8).data i) ∧
      (∀ i, (∀ r, r < 2 / 2 → ¬ (r * 2 ≤ i ∧ i < r * 2 + 4 / 2)) →
        res.v.data i = (constBuf 20 9).data i) :=
  ⟨(aurora_decoder_decode (some { d := 0 }) (some sampleFrame) 28
      (constBuf 20 7) (constBuf 20 8) (constBuf 20 9) 5 4 2).get (by decide),
    (Option.some_get _).symm,
    decode_frame_condition { d := 0 } sampleFrame 28
      (constBuf 20 7) (constBuf 20 8) (constBuf 20 9) 4 2 5 4 2 _
      (by decide) (by decide) (by decide) (by decide) (by decide) (by decide) (by decide)
      (by decide) (Option.some_get _).symm (by decide)⟩

/-- The bytes behind a 32-bit load are the base-256 digits of its value. -/
theorem load32_bytes {b : Buf} {off x : Nat} (h : load32 b off = some x) (i : Nat)
    (hi : i < 4) : b.data (off + i) = leByte x i := by
  unfold load32 at h
  split at h
  · simp only [Option.some.injEq] at h
    have h0 := (b.data off).isLt
    have h1 := (b.data (off + 1)).isLt
    have h2 := (b.data (off + 2)).isLt
    have h3 := (b.data (off + 3)).isLt
    apply Fin.ext
    simp only [leByte]
    interval_cases i
    · simp only [Nat.add_zero, pow_zero, Nat.div_one]; omega
    · norm_num; omega
    · norm_num; omega
    · norm_num; omega
  · cases h

theorem load32_lt {b : Buf} {off x : Nat} (h : load32 b off = some x) : x < 4294967296 := by
  unfold load32 at h
  split at h
  · simp only [Option.some.injEq] at h
    have h0 := (b.data off).isLt
    have h1 := (b.data (off + 1)).isLt
    have h2 := (b.data (off + 2)).isLt
    have h3 := (b.data (off + 3)).isLt
    omega
  · cases h

theorem toInt32_natCast_inv {x W : Nat} (hx : x < 4294967296) (h : toInt32 x = (W : Int)) :
    x = W := by
  unfold toInt32 INT_MODULUS at h
  rw [Nat.mod_eq_of_lt hx] at h
  split at h <;> omega

/-- Claim C17. Unpack-then-pack round trip. For a source `bs` whose header
declares a width `W > 0` and a height `H > 0`, whose bytes 12..15 are zero and
whose length is exactly `16 + W*H + 2*(W/2)*(H/2)`: unpacking it into tightly
strided planes (strides `W`, `W/2`, `W/2`) returns 0 and `(W, H, F)`, and
packing those planes with a context created from `(W, H, F)` and a capacity
equal to that length returns 0, reports that length and writes the bytes of
`bs`. -/
theorem unpack_pack_roundtrip (d : DecCtx) (b y u v out : Buf) (W H F : Nat)
    (hW0 : 0 < W) (hH0 : 0 < H)
    (hw : (load32 b 0).map toInt32 = some (W : Int))
    (hh : (load32 b 4).map toInt32 = some (H : Int))
    (hf : load32 b 8 = some F)
    (hres : ∀ i, 12 ≤ i → i < 16 → b.data i = 0)
    (hlen : b.size = 16 + W * H + 2 * ((W / 2) * (H / 2)))
    (fy : W * H ≤ y.size) (fu : (W / 2) * (H / 2) ≤ u.size) (fv : (W / 2) * (H / 2) ≤ v.size)
    (hout : b.size ≤ out.size) :
    ∃ r e,
      aurora_decoder_decode (some d) (some b) b.size y u v W ((W / 2 : Nat) : Int)
        ((W / 2 : Nat) : Int) = some r ∧
      r.status = 0 ∧ r.ow = some (W : Int) ∧ r.oh = some (H : Int) ∧ r.ofps = some F ∧
      aurora_encoder_encode (aurora_encoder_create true W H F) r.y r.u r.v W
        ((W / 2 : Nat) : Int) ((W / 2 : Nat) : Int) out b.size = some e ∧
      e.status = 0 ∧ e.out_size = some b.size ∧
      ∀ i, i < b.size → e.out.data i = b.data i := by
  obtain ⟨wbits, hwb, tW⟩ := Option.map_eq_some'.mp hw
  obtain ⟨hbits, hhb, tH⟩ := Option.map_eq_some'.mp hh
  have hWlt := toInt32_eq_natCast tW
  have hHlt := toInt32_eq_natCast tH
  have ew : wbits = W := toInt32_natCast_inv (load32_lt hwb) tW
  have eh : hbits = H := toInt32_natCast_inv (load32_lt hhb) tH
  have hFlt := load32_lt hf
  have hmc : H * W = W * H := Nat.mul_comm H W
  have hmc2 : H / 2 * (W / 2) = W / 2 * (H / 2) := Nat.mul_comm _ _
  have pf : ∀ (p : Buf) (w h : Nat), w * h ≤ p.size → PlaneFits p w w h := by
    intro p w h hp
    rcases Nat.eq_zero_or_pos h with h0 | h0
    · exact Or.inl h0
    · right
      have e : (h - 1) * w + w = w * h := by
        have : (h - 1 + 1) * w = h * w := by rw [Nat.sub_add_cancel h0]
        rw [Nat.add_mul, Nat.one_mul] at this
        rw [this, Nat.mul_comm]
      omega
  obtain ⟨r, hr, rst, row, roh, rof, zy, zu, zv, dy, du, dv, _⟩ :=
    decode_nat d b b.size y u v W H W (W / 2) (W / 2) wbits hbits F hwb tW hhb tH hf
      (by omega) (le_refl _) (by omega) (by omega) (by omega) (pf y W H fy)
      (pf u (W / 2) (H / 2) fu) (pf v (W / 2) (H / 2) fv)
  obtain ⟨e, he, est, esz, _, _, _, _, _, ly, lu, lv, _, _, s0, hs0, hlow⟩ :=
    encode_nat W H F W (W / 2) (W / 2) r.y r.u r.v out b.size hWlt hHlt (by omega)
      (by omega) (by omega) (by omega) (by omega) (pf r.y W H (by rw [zy]; exact fy))
      (pf r.u (W / 2) (H / 2) (by rw [zu]; exact fu))
      (pf r.v (W / 2) (H / 2) (by rw [zv]; exact fv))
  have hc : aurora_encoder_create true (W : Int) (H : Int) F
      = some { w := W, h := H, fps := F } := rfl
  refine ⟨r, e, hr, rst, row, roh, rof, by rw [hc]; exact he, est, by rw [esz, hlen], ?_⟩
  intro i hi
  by_cases h16 : i < 16
  · rw [hlow i h16]
    obtain ⟨_, _, _, _, _, lz, _, _⟩ := encHeader_some hs0
    by_cases h12 : i < 12
    · by_cases h4 : i < 4
      · obtain ⟨b1, _, _⟩ := encHeader_bytes hs0 i h4
        have hb := load32_bytes hwb i h4
        simp only [Nat.zero_add] at hb
        rw [b1, hb, ew]
        simp only
        rw [toU32_natCast W (by unfold INT_MODULUS; omega)]
      · by_cases h8 : i < 8
        · obtain ⟨_, b2, _⟩ := encHeader_bytes hs0 (i - 4) (by omega)
          have hb := load32_bytes hhb (i - 4) (by omega)
          have e4 : 4 + (i - 4) = i := by omega
          rw [e4] at b2 hb
          rw [b2, hb, eh]
          simp only
          rw [toU32_natCast H (by unfold INT_MODULUS; omega)]
        · obtain ⟨_, _, b3⟩ := encHeader_bytes hs0 (i - 8) (by omega)
          have hb := load32_bytes hf (i - 8) (by omega)
          have e8 : 8 + (i - 8) = i := by omega
          rw [e8] at b3 hb
          rw [b3, hb]
    · rw [lz i (by omega) h16, hres i (by omega) h16]
  · by_cases hY : i < 16 + W * H
    · obtain ⟨q, c, hq, hcw, hj⟩ := row_decomp W H (i - 16) (by omega)
      have ei : i = 16 + q * W + c := by omega
      rw [ei, ly q c hq hcw, dy (le_refl _) q c hq hcw]
    · by_cases hU : i < 16 + W * H + W / 2 * (H / 2)
      · obtain ⟨q, c, hq, hcw, hj⟩ := row_decomp (W / 2) (H / 2) (i - (16 + W * H))
          (by omega)
        have ei : i = 16 + W * H + q * (W / 2) + c := by omega
        rw [ei, lu q c hq hcw, du (le_refl _) q c hq hcw]
      · obtain ⟨q, c, hq, hcw, hj⟩ := row_decomp (W / 2) (H / 2)
          (i - (16 + W * H + W / 2 * (H / 2))) (by omega)
        have ei : i = 16 + W * H + W / 2 * (H / 2) + q * (W / 2) + c := by omega
        rw [ei, lv q c hq hcw, dv (le_refl _) q c hq hcw]

/-- Witness for C17: the 28-byte frame `sampleFrameZeroReserved` (4 x 2). -/
theorem unpack_pack_roundtrip_witness :
    ∃ r e,
      aurora_decoder_decode (some { d := 0 }) (some sampleFrameZeroReserved)
        sampleFrameZeroReserved.size (constBuf 8 7) (constBuf 2 8) (constBuf 2 9)
        ((4 : Nat) : Int) ((4 / 2 : Nat) : Int) ((4 / 2 : Nat) : Int) = some r ∧
      r.status = 0 ∧ r.ow = some ((4 : Nat) : Int) ∧ r.oh = some ((2 : Nat) : Int) ∧
      r.ofps = some 1106247680 ∧
      aurora_encoder_encode (aurora_encoder_create true ((4 : Nat) : Int) ((2 : Nat) : Int)
        1106247680) r.y r.u r.v ((4 : Nat) : Int) ((4 / 2 : Nat) : Int) ((4 / 2 : Nat) : Int)
        (constBuf 28 1) sampleFrameZeroReserved.size = some e ∧
      e.status = 0 ∧ e.out_size = some sampleFrameZeroReserved.size ∧
      ∀ i, i < sampleFrameZeroReserved.size → e.out.data i = sampleFrameZeroReserved.data i :=
  unpack_pack_roundtrip { d := 0 } sampleFrameZeroReserved (constBuf 8 7) (constBuf 2 8)
    (constBuf 2 9) (constBuf 28 1) 4 2 1106247680
    (by decide) (by decide) (by decide) (by decide) (by decide) (by decide) (by decide)
    (by decide) (by decide) (by decide) (by decide)

/-- Counterexample to C18 as stated: a header declaring width -1 and height -1
with `n = 17` passes the size check (`16 + 1 + 0 = 17`), no row is copied, and
the unpacker returns 0 reporting the width -1 and the height -1. -/
theorem decode_negative_geometry_counterexample :
    needSize (-1) (-1) = 17 ∧
    (aurora_decoder_decode (some { d := 0 }) (some negFrame) 17
        (constBuf 20 7) (constBuf 20 8) (constBuf 20 9) 5 4 2).map
        (fun r => (r.status, r.ow, r.oh, r.trace))
      = some (0, some (-1), some (-1), []) := by
  decide

/-- Claim C18, amended. When the unpacker returns 0, the width and the height
it reports are the two signed 32-bit values stored in the header at offsets 0
and 4, as they are; nothing checks their sign. -/
theorem decode_reports_header_geometry (d : DecCtx) (b : Buf) (n : Nat) (y u v : Buf)
    (ys us vs : Int) (res : DecResult)
    (hrun : aurora_decoder_decode (some d) (some b) n y u v ys us vs = some res)
    (hok : res.status = 0) :
    ∃ w h, (load32 b 0).map toInt32 = some w ∧ (load32 b 4).map toInt32 = some h ∧
      res.ow = some w ∧ res.oh = some h := by
  obtain ⟨wbits, hbits, fps, s1, s2, s3, _, h0, h4, _, _, _, _, _, rfl⟩ :=
    decode_some_inv hrun hok
  exact ⟨toInt32 wbits, toInt32 hbits, by rw [h0]; rfl, by rw [h4]; rfl, rfl, rfl⟩

/-- Witness for the amended C18: the header of `negFrame` (width -1, height -1)
is reported as it is. -/
theorem decode_reports_header_geometry_witness :
    ∃ w h, (load32 negFrame 0).map toInt32 = some w ∧
      (load32 negFrame 4).map toInt32 = some h ∧
      ((aurora_decoder_decode (some { d := 0 }) (some negFrame) 17
        (constBuf 20 7) (constBuf 20 8) (constBuf 20 9) 5 4 2).get (by decide)).ow = some w ∧
      ((aurora_decoder_decode (some { d := 0 }) (some negFrame) 17
        (constBuf 20 7) (constBuf 20 8) (constBuf 20 9) 5 4 2).get (by decide)).oh = some h :=
  decode_reports_header_geometry { d := 0 } negFrame 17
    (constBuf 20 7) (constBuf 20 8) (constBuf 20 9) 5 4 2 _
    (Option.some_get _).symm (by decide)

end Aurora
